import Mathlib

/-!
Connection-limit registry (`features/connlimit.go`)

A shallow embedding of the per-identifier connection registry and a verification of
its admission contract.

Modelling conventions.

* A Go `map[string]T` is a function `String → Option T` (`none` = key absent); assigning
  `m[k] = v` is `Function.update m k (some v)`.
* A `*list.List` of `*connectedIP` is a `List connectedIP`; a pointer to one element of the
  list is its position, and a write through the pointer rewrites the element at that
  position.  The only insertion in the source is `PushBack` of a non-nil `*connectedIP`,
  so the `e.Value != nil` tests of the two read-only scans never fail and list elements
  are plain records.
* `uint32` values are naturals; the one operation that can overflow, `count += 1`, is
  reduced modulo `2 ^ 32`.  `count -= 1` is only executed behind the `count <= 0` panic,
  so it never wraps.
* The Go `int` has 32 or 64 bits depending on the build; the build is a parameter
  (`IntSize`) of every definition that converts to `int`.  The conversion `int(x)` of a
  `uint32` is the identity on a 64-bit build and a two's complement reinterpretation on a
  32-bit build.  A scan counter is bounded by the length of a list held in memory and
  never reaches `2 ^ 31`, so it is a natural number.
* Every method takes the registry and returns the registry it leaves together with its
  result; for the read-only methods the `...Call` definition is this state-passing form
  and the definition with the name of the source is the value it returns.
* The mutex and the debug printing have no effect on states or results and are omitted;
  the `debugLog` flag itself is kept in the state.
* A `panic` is the `Except.error` result; it carries the reason and the registry state at
  the point of the panic.
-/

namespace features

/-! ## `net.IP` (Go standard library) -/

/-- Go `net.IP`: a slice of bytes (4 bytes for IPv4, 16 bytes for IPv6). -/
abbrev IP := List Nat

/-- Go `net.v4InV6Prefix`: the 12 leading bytes of an IPv4-mapped IPv6 address. -/
def v4InV6Prefix : List Nat := [0, 0, 0, 0, 0, 0, 0, 0, 0, 0, 0xff, 0xff]

/-- Go `net.IP.Equal`: same bytes, or one is the 4-byte form and the other the
IPv4-mapped 16-byte form of the same address. -/
def IP.Equal (ip x : IP) : Bool :=
  if ip.length = x.length then
    ip == x
  else if ip.length = 4 ∧ x.length = 16 then
    x.take 12 == v4InV6Prefix && ip == x.drop 12
  else if ip.length = 16 ∧ x.length = 4 then
    ip.take 12 == v4InV6Prefix && ip.drop 12 == x
  else
    false

/-! ## Data model -/

/-- Go `AllowedConnections`: one policy entry. -/
structure AllowedConnections where
  Id : String
  MaxConnections : Nat
  deriving DecidableEq, Repr

/-- Go `connectedIP`: an address and its `uint32` connection counter. -/
structure connectedIP where
  ip : IP
  count : Nat
  deriving DecidableEq, Repr

/-- Go `connLimitMap` (without the mutex). -/
structure connLimitMap where
  connectedIPs : String → Option (List connectedIP)
  maxAllowedConnections : String → Option Nat
  debugLog : Bool

/-- Why `decrementConnectionsCounter` panicked. -/
inductive PanicReason where
  | unexistingId
  | unconnectedIP
  | zeroCounter
  deriving DecidableEq, Repr

/-- Wrap-around bound of `uint32`. -/
def uint32Size : Nat := 2 ^ 32

/-- Size of the Go `int` of the build; the language fixes it at 32 or 64 bits. -/
inductive IntSize where
  | bits32
  | bits64
  deriving DecidableEq, Repr

/-- Go conversion `int(x)` of a `uint32` value `x`: the identity where `int` has 64
bits; where it has 32 bits the bits are reinterpreted in two's complement, so a value of
`2 ^ 31` or more becomes negative. -/
def intOfUint32 : IntSize → Nat → Int
  | .bits64, x => (x : Int)
  | .bits32, x => if x < 2 ^ 31 then (x : Int) else (x : Int) - 2 ^ 32

/-! ## List helpers shared by the scans -/

/-- The search loop of `incrementConnectionsCounter` and `decrementConnectionsCounter`:
`for e := l.Front(); e != nil; e = e.Next() { if e.ip.Equal(ip) { found = e; break } }`.
The result is the position of the element found, `none` for a nil pointer. -/
def findIP : List connectedIP → IP → Option Nat
  | [], _ => none
  | e :: rest, ip =>
    if e.ip.Equal ip then some 0
    else
      match findIP rest ip with
      | some i => some (i + 1)
      | none => none

/-- Read `p.count` through the pointer `p` to position `i`. -/
def countAt : List connectedIP → Nat → Nat
  | [], _ => 0
  | e :: _, 0 => e.count
  | _ :: rest, i + 1 => countAt rest i

/-- Write `p.count = f p.count` through the pointer `p` to position `i`. -/
def modifyCount (f : Nat → Nat) : List connectedIP → Nat → List connectedIP
  | [], _ => []
  | e :: rest, 0 => { e with count := f e.count } :: rest
  | e :: rest, i + 1 => e :: modifyCount f rest i

/-- The scan of `alreadyHasConnection` over a non-nil list. -/
def alreadyHasConnectionLoop : List connectedIP → IP → Bool
  | [], _ => false
  | cip :: rest, clientIP =>
    if cip.ip.Equal clientIP then decide (cip.count > 0)
    else alreadyHasConnectionLoop rest clientIP

/-- The scan of `connectedIPsForID` over a non-nil list, `size` being the running total. -/
def connectedIPsForIDLoop : List connectedIP → Nat → Nat
  | [], size => size
  | e :: rest, size =>
    if e.count > 0 then connectedIPsForIDLoop rest (size + 1)
    else connectedIPsForIDLoop rest size

/-! ## The registry operations -/

/-- Go `MakeConnLimitInfo`: empty counter map, policy map filled entry by entry (a later
entry for the same identifier overwrites an earlier one). -/
def MakeConnLimitInfo (allowedConnections : List AllowedConnections)
    (enableDebugLog : Bool) : connLimitMap :=
  { connectedIPs := fun _ => none
    maxAllowedConnections :=
      allowedConnections.foldl
        (fun m e => Function.update m e.Id (some e.MaxConnections)) (fun _ => none)
    debugLog := enableDebugLog }

/-- Go `connLimitMap.alreadyHasConnection` as a call on the registry: the registry it
leaves and the boolean it returns.  The body reads the map and scans the list. -/
def alreadyHasConnectionCall (c : connLimitMap) (id : String) (clientIP : IP) :
    connLimitMap × Bool :=
  match c.connectedIPs id with
  | some list => (c, alreadyHasConnectionLoop list clientIP)
  | none => (c, false)

/-- Go `connLimitMap.alreadyHasConnection`: the boolean returned by the call. -/
def alreadyHasConnection (c : connLimitMap) (id : String) (clientIP : IP) : Bool :=
  (alreadyHasConnectionCall c id clientIP).2

/-- Go `connLimitMap.connectedIPsForID` as a call on the registry: the registry it leaves
and the size it returns.  The body reads the map and scans the list. -/
def connectedIPsForIDCall (c : connLimitMap) (id : String) : connLimitMap × Nat :=
  match c.connectedIPs id with
  | none => (c, 0)
  | some connectedIPs => (c, connectedIPsForIDLoop connectedIPs 0)

/-- Go `connLimitMap.connectedIPsForID`: the size returned by the call. -/
def connectedIPsForID (c : connLimitMap) (id : String) : Nat :=
  (connectedIPsForIDCall c id).2

/-- Go map index `c.maxAllowedConnections[id]`: the zero value for an absent key. -/
def maxAllowedConnectionsAt (c : connLimitMap) (id : String) : Nat :=
  match c.maxAllowedConnections id with
  | some m => m
  | none => 0

/-- Go `connLimitMap.CanEstablishNewConnection` as a call on the registry, on a build with
the given `int` size: the registry it leaves and the boolean it returns.  The registry is
passed through the two helper calls in the order of the source, and the limit is read
from the registry the second one leaves. -/
def CanEstablishNewConnectionCall (intSize : IntSize) (c : connLimitMap) (id : String)
    (clientIP : IP) : connLimitMap × Bool :=
  let size := connectedIPsForIDCall c id
  let hasConnection := alreadyHasConnectionCall size.1 id clientIP
  let result :=
    hasConnection.2 ||
      decide ((size.2 : Int) < intOfUint32 intSize (maxAllowedConnectionsAt hasConnection.1 id))
  (hasConnection.1, result)

/-- Go `connLimitMap.CanEstablishNewConnection`: the boolean returned by the call. -/
def CanEstablishNewConnection (intSize : IntSize) (c : connLimitMap) (id : String)
    (clientIP : IP) : Bool :=
  (CanEstablishNewConnectionCall intSize c id clientIP).2

/-- Successive `CanEstablishNewConnection(id, a)` calls with no other call in between,
each on the registry left by the one before: the registry left by the last call and the
list of the results. -/
def canEstablishRepeated (intSize : IntSize) (id : String) (a : IP) :
    Nat → connLimitMap → connLimitMap × List Bool
  | 0, c => (c, [])
  | n + 1, c =>
    let r := CanEstablishNewConnectionCall intSize c id a
    let rest := canEstablishRepeated intSize id a n r.1
    (rest.1, r.2 :: rest.2)

/-- Go `connLimitMap.incrementConnectionsCounter`: the new state and the returned count. -/
def incrementConnectionsCounter (c : connLimitMap) (id : String) (ip : IP) :
    connLimitMap × Nat :=
  let connectedIPs : List connectedIP :=
    match c.connectedIPs id with
    | some l => l
    | none => []
  let found : List connectedIP × Nat :=
    match findIP connectedIPs ip with
    | some i => (connectedIPs, i)
    | none => (connectedIPs ++ [{ ip := ip, count := 0 }], connectedIPs.length)
  let updated := modifyCount (fun n => (n + 1) % uint32Size) found.1 found.2
  ({ c with connectedIPs := Function.update c.connectedIPs id (some updated) },
    countAt updated found.2)

/-- Go `connLimitMap.decrementConnectionsCounter`: the new state and the returned count,
or the panic with the state it leaves behind. -/
def decrementConnectionsCounter (c : connLimitMap) (id : String) (ip : IP) :
    Except (PanicReason × connLimitMap) (connLimitMap × Nat) :=
  match c.connectedIPs id with
  | none => .error (.unexistingId, c)
  | some connectedIPs =>
    match findIP connectedIPs ip with
    | none => .error (.unconnectedIP, c)
    | some i =>
      if countAt connectedIPs i ≤ 0 then .error (.zeroCounter, c)
      else
        let updated := modifyCount (fun n => n - 1) connectedIPs i
        .ok ({ c with connectedIPs := Function.update c.connectedIPs id (some updated) },
          countAt updated i)

/-- Go `connLimitMap.OnConnectionEstablished`: the new state and the returned boolean. -/
def OnConnectionEstablished (c : connLimitMap) (id : String) (clientIP : IP) :
    connLimitMap × Bool :=
  let r := incrementConnectionsCounter c id clientIP
  (r.1, true)

/-- Go `connLimitMap.OnConnectionLost`: the new state, or the panic. -/
def OnConnectionLost (c : connLimitMap) (id : String) (clientIP : IP) :
    Except (PanicReason × connLimitMap) connLimitMap :=
  match decrementConnectionsCounter c id clientIP with
  | .error p => .error p
  | .ok r => .ok r.1

/-! ## Observations used to state the contract -/

/-- The counter list of `id`, empty when the identifier has none. -/
def countersOf (c : connLimitMap) (id : String) : List connectedIP :=
  (c.connectedIPs id).getD []

/-- The counter for `(id, a)`: the first counter under `id` whose address equals `a`. -/
def counterFor (c : connLimitMap) (id : String) (a : IP) : Option connectedIP :=
  (countersOf c id).find? (fun e => e.ip.Equal a)

/-- The count of `(id, a)`, `none` when the pair has no counter. -/
def countFor (c : connLimitMap) (id : String) (a : IP) : Option Nat :=
  (counterFor c id a).map (fun e => e.count)

/-- Number of counters under `id` with `count > 0` (distinct active addresses). -/
def activeAddresses (c : connLimitMap) (id : String) : Nat :=
  (countersOf c id).countP (fun e => decide (e.count > 0))

/-- Policy limit of `id`: its entry, or 0 when the policy has none. -/
def maxAllowed (c : connLimitMap) (id : String) : Nat :=
  (c.maxAllowedConnections id).getD 0

/-- The effective count of `(id, a)`: 0 when the pair has no counter. -/
def effectiveCount (c : connLimitMap) (id : String) (a : IP) : Nat :=
  (countFor c id a).getD 0

/-! ## Sequences of calls -/

/-- One call on the registry. -/
inductive Op where
  | canEstablish (id : String) (a : IP)
  | established (id : String) (a : IP)
  | lost (id : String) (a : IP)
  deriving DecidableEq, Repr

/-- Perform one call and keep the registry it leaves; `none` when `OnConnectionLost`
panics.  An admission check leaves the registry it was given, on either build
(`CanEstablishNewConnectionCall_state`). -/
def step (c : connLimitMap) : Op → Option connLimitMap
  | .canEstablish _ _ => some c
  | .established id a => some (OnConnectionEstablished c id a).1
  | .lost id a =>
    match OnConnectionLost c id a with
    | .ok c1 => some c1
    | .error _ => none

/-- Perform a sequence of calls from left to right; `none` once a call panics. -/
def run (c : connLimitMap) : List Op → Option connLimitMap
  | [] => some c
  | op :: ops =>
    match step c op with
    | some c1 => run c1 ops
    | none => none

/-- The caller protocol: `OnConnectionEstablished(id, a)` is only issued in a state where
`CanEstablishNewConnection(id, a)` returns true. -/
def permitted (intSize : IntSize) (c : connLimitMap) : Op → Bool
  | .established id a => CanEstablishNewConnection intSize c id a
  | _ => true

/-- Perform a sequence of calls that follows the caller protocol; `none` when a call
panics or an `OnConnectionEstablished` is issued without admission. -/
def runGuarded (intSize : IntSize) (c : connLimitMap) : List Op → Option connLimitMap
  | [] => some c
  | op :: ops =>
    if permitted intSize c op then
      match step c op with
      | some c1 => runGuarded intSize c1 ops
      | none => none
    else none

/-- What a caller sees of one call: the boolean returned, the normal return of
`OnConnectionLost`, or its panic. -/
inductive Obs where
  | can (result : Bool)
  | established (result : Bool)
  | lost
  | lostPanic
  deriving DecidableEq, Repr

/-- The results seen by the caller of a sequence of calls on the list registry; the
sequence ends at the first panic. -/
def observe (intSize : IntSize) (c : connLimitMap) : List Op → List Obs
  | [] => []
  | .canEstablish id a :: ops =>
    .can (CanEstablishNewConnection intSize c id a) :: observe intSize c ops
  | .established id a :: ops =>
    .established (OnConnectionEstablished c id a).2 ::
      observe intSize (OnConnectionEstablished c id a).1 ops
  | .lost id a :: ops =>
    match OnConnectionLost c id a with
    | .ok c1 => .lost :: observe intSize c1 ops
    | .error _ => [.lostPanic]

/-- No two counters of the list have equal addresses. -/
def distinctAddresses (l : List connectedIP) : Prop :=
  l.Pairwise (fun x y => x.ip.Equal y.ip = false)

/-! ## The keyed model of the specification -/

/-- Canonical representation of an address, the key of the keyed model: a 4-byte address
is written in its IPv4-mapped 16-byte form, any other byte string is kept. -/
def canonical (a : IP) : IP :=
  if a.length = 4 then v4InV6Prefix ++ a else a

/-- The keyed registry of the specification: per identifier a finite set of keys, the
canonical addresses that have a counter (absent = no counter), and one count per key, a
non-negative integer; and the policy, an identifier absent from it having
`maxAllowed = 0`.  It has no order. -/
structure keyedRegistry where
  known : String → Finset IP
  count : String → IP → Nat
  policy : String → Option Nat

/-- Keyed model at construction: no counters, the policy of the list of pairs. -/
def keyedMake (allowedConnections : List AllowedConnections) : keyedRegistry :=
  { known := fun _ => ∅
    count := fun _ _ => 0
    policy :=
      allowedConnections.foldl
        (fun m e => Function.update m e.Id (some e.MaxConnections)) (fun _ => none) }

/-- Keyed lookup of the count of `(id, a)`; `none` when the pair has no counter. -/
def keyedCountFor (k : keyedRegistry) (id : String) (a : IP) : Option Nat :=
  if canonical a ∈ k.known id then some (k.count id (canonical a)) else none

/-- Keyed model, `distinctActive`: number of addresses under `id` with `count > 0`. -/
def keyedActive (k : keyedRegistry) (id : String) : Nat :=
  ((k.known id).filter (fun x => 0 < k.count id x)).card

/-- Keyed model of `CanEstablish`: `hasConnection OR distinctActive < maxAllowed(id)`, a
comparison of non-negative integers. -/
def keyedCanEstablish (k : keyedRegistry) (id : String) (a : IP) : Bool :=
  let hasConnection :=
    match keyedCountFor k id a with
    | some n => decide (n > 0)
    | none => false
  hasConnection || decide (keyedActive k id < (k.policy id).getD 0)

/-- Keyed model of `OnEstablished`: unconditionally increments the counter of the key,
creating it if absent, and returns true.  The count is a non-negative integer and has no
upper bound. -/
def keyedOnEstablished (k : keyedRegistry) (id : String) (a : IP) : keyedRegistry × Bool :=
  let n := (keyedCountFor k id a).getD 0
  ({ k with
      known := Function.update k.known id (insert (canonical a) (k.known id))
      count := Function.update k.count id
        (Function.update (k.count id) (canonical a) (n + 1)) }, true)

/-- Keyed model of `OnLost`: decrements the counter of the key; `none` (fatal) when the
pair has no counter or the counter is already 0. -/
def keyedOnLost (k : keyedRegistry) (id : String) (a : IP) : Option keyedRegistry :=
  match keyedCountFor k id a with
  | none => none
  | some n =>
    if n = 0 then none
    else
      some { k with
        count := Function.update k.count id
          (Function.update (k.count id) (canonical a) (n - 1)) }

/-- The results seen by the caller of a sequence of calls on the keyed registry; the
sequence ends at the first fatal failure. -/
def keyedObserve (k : keyedRegistry) : List Op → List Obs
  | [] => []
  | .canEstablish id a :: ops => .can (keyedCanEstablish k id a) :: keyedObserve k ops
  | .established id a :: ops =>
    .established (keyedOnEstablished k id a).2 :: keyedObserve (keyedOnEstablished k id a).1 ops
  | .lost id a :: ops =>
    match keyedOnLost k id a with
    | some k1 => .lost :: keyedObserve k1 ops
    | none => [.lostPanic]

/-- Along the sequence of calls every count of the keyed registry stays below `2 ^ 32`:
no pair ever holds `2 ^ 32` or more connections at once. -/
def countsBelowWrap (k : keyedRegistry) : List Op → Bool
  | [] => true
  | .canEstablish _ _ :: ops => countsBelowWrap k ops
  | .established id a :: ops =>
    decide ((keyedCountFor k id a).getD 0 + 1 < uint32Size) &&
      countsBelowWrap (keyedOnEstablished k id a).1 ops
  | .lost id a :: ops =>
    match keyedOnLost k id a with
    | some k1 => countsBelowWrap k1 ops
    | none => true

/-- A counter list stands for a set of keys with counts: the canonical addresses of the
list are pairwise different, they are the keys, and each counter holds the count of its
key. -/
def representsList (l : List connectedIP) (keys : Finset IP) (f : IP → Nat) : Prop :=
  (l.map (fun e => canonical e.ip)).Nodup ∧
    keys = (l.map (fun e => canonical e.ip)).toFinset ∧
    ∀ e ∈ l, f (canonical e.ip) = e.count

/-- A list registry stands for a keyed registry: same policy, and the list of every
identifier stands for its keys and counts. -/
def represents (c : connLimitMap) (k : keyedRegistry) : Prop :=
  c.maxAllowedConnections = k.policy ∧
    ∀ id, representsList (countersOf c id) (k.known id) (k.count id)

/-- The registry with policy `[("svc", 1)]` in which address 10.0.0.1 holds
`2 ^ 32 - 1` connections under `"svc"`: the largest value of the `uint32` counter. -/
def saturatedRegistry : connLimitMap :=
  { MakeConnLimitInfo [⟨"svc", 1⟩] false with
    connectedIPs := Function.update (fun _ => none) "svc" (some [⟨[10, 0, 0, 1], 4294967295⟩]) }

/-! ## Lemmas on addresses and scans -/

theorem IP.Equal_refl (a : IP) : IP.Equal a a = true := by
  simp [IP.Equal]

theorem connectedIPsForIDLoop_eq (l : List connectedIP) (n : Nat) :
    connectedIPsForIDLoop l n = n + l.countP (fun e => decide (e.count > 0)) := by
  induction l generalizing n with
  | nil => simp [connectedIPsForIDLoop]
  | cons e rest ih =>
    by_cases h : e.count > 0
    · simp [connectedIPsForIDLoop, h, ih, List.countP_cons]; omega
    · simp [connectedIPsForIDLoop, h, ih, List.countP_cons]

/-- The read-only calls leave the registry they were given. -/
theorem connectedIPsForIDCall_state (c : connLimitMap) (id : String) :
    (connectedIPsForIDCall c id).1 = c := by
  unfold connectedIPsForIDCall
  cases c.connectedIPs id <;> rfl

theorem alreadyHasConnectionCall_state (c : connLimitMap) (id : String) (a : IP) :
    (alreadyHasConnectionCall c id a).1 = c := by
  unfold alreadyHasConnectionCall
  cases c.connectedIPs id <;> rfl

theorem CanEstablishNewConnectionCall_state (w : IntSize) (c : connLimitMap) (id : String)
    (a : IP) : (CanEstablishNewConnectionCall w c id a).1 = c := by
  unfold CanEstablishNewConnectionCall
  simp only [connectedIPsForIDCall_state, alreadyHasConnectionCall_state]

theorem connectedIPsForID_def (c : connLimitMap) (id : String) :
    connectedIPsForID c id =
      match c.connectedIPs id with
      | none => 0
      | some connectedIPs => connectedIPsForIDLoop connectedIPs 0 := by
  unfold connectedIPsForID connectedIPsForIDCall
  cases c.connectedIPs id <;> rfl

theorem alreadyHasConnection_def (c : connLimitMap) (id : String) (a : IP) :
    alreadyHasConnection c id a =
      match c.connectedIPs id with
      | some list => alreadyHasConnectionLoop list a
      | none => false := by
  unfold alreadyHasConnection alreadyHasConnectionCall
  cases c.connectedIPs id <;> rfl

/-- The boolean returned by `CanEstablishNewConnection` in terms of the values returned
by the two helper calls on the registry the call was given. -/
theorem CanEstablishNewConnection_def (w : IntSize) (c : connLimitMap) (id : String)
    (a : IP) :
    CanEstablishNewConnection w c id a =
      (alreadyHasConnection c id a ||
        decide ((connectedIPsForID c id : Int) <
          intOfUint32 w (maxAllowedConnectionsAt c id))) := by
  unfold CanEstablishNewConnection CanEstablishNewConnectionCall
  simp only [connectedIPsForIDCall_state, alreadyHasConnectionCall_state]
  rfl

theorem intOfUint32_le (w : IntSize) (x : Nat) : intOfUint32 w x ≤ (x : Int) := by
  cases w with
  | bits64 => exact le_refl _
  | bits32 =>
    show (if x < 2 ^ 31 then (x : Int) else (x : Int) - 2 ^ 32) ≤ (x : Int)
    split
    · exact le_refl _
    · have : (0 : Int) ≤ 2 ^ 32 := by norm_num
      omega

theorem intOfUint32_eq (w : IntSize) (x : Nat) (h : w = .bits64 ∨ x < 2 ^ 31) :
    intOfUint32 w x = (x : Int) := by
  cases w with
  | bits64 => rfl
  | bits32 =>
    rcases h with h | h
    · cases h
    · show (if x < 2 ^ 31 then (x : Int) else (x : Int) - 2 ^ 32) = (x : Int)
      rw [if_pos h]

theorem connectedIPsForID_eq (c : connLimitMap) (id : String) :
    connectedIPsForID c id = activeAddresses c id := by
  rw [connectedIPsForID_def]
  unfold activeAddresses countersOf
  cases c.connectedIPs id with
  | none => simp
  | some l => simp [connectedIPsForIDLoop_eq]

theorem alreadyHasConnectionLoop_iff (l : List connectedIP) (a : IP) :
    alreadyHasConnectionLoop l a = true ↔
      ∃ e, l.find? (fun e => e.ip.Equal a) = some e ∧ e.count > 0 := by
  induction l with
  | nil => simp [alreadyHasConnectionLoop]
  | cons e rest ih =>
    by_cases h : e.ip.Equal a = true
    · simp [alreadyHasConnectionLoop, List.find?_cons, h]
    · simp [alreadyHasConnectionLoop, List.find?_cons, h, ih]

theorem alreadyHasConnection_iff (c : connLimitMap) (id : String) (a : IP) :
    alreadyHasConnection c id a = true ↔
      ∃ e, counterFor c id a = some e ∧ e.count > 0 := by
  rw [alreadyHasConnection_def]
  unfold counterFor countersOf
  cases c.connectedIPs id with
  | none => simp
  | some l => simp [alreadyHasConnectionLoop_iff]

theorem maxAllowedConnectionsAt_eq (c : connLimitMap) (id : String) :
    maxAllowedConnectionsAt c id = maxAllowed c id := by
  unfold maxAllowedConnectionsAt maxAllowed
  cases c.maxAllowedConnections id <;> rfl

theorem findIP_none_iff (l : List connectedIP) (a : IP) :
    findIP l a = none ↔ l.find? (fun e => e.ip.Equal a) = none := by
  induction l with
  | nil => simp [findIP]
  | cons e rest ih =>
    by_cases h : e.ip.Equal a = true
    · simp [findIP, List.find?_cons, h]
    · cases hr : findIP rest a with
      | none =>
        have := ih.mp hr
        simp [findIP, List.find?_cons, h, hr, this]
      | some j =>
        have : ¬ (List.find? (fun e => e.ip.Equal a) rest = none) := fun hn => by
          rw [ih.mpr hn] at hr; cases hr
        simp [findIP, List.find?_cons, h, hr, this]

/-- What the pointer found by the search loop denotes, and what a write through it does. -/
theorem findIP_some (f : Nat → Nat) (l : List connectedIP) (a : IP) (i : Nat)
    (h : findIP l a = some i) :
    ∃ e, l.find? (fun e => e.ip.Equal a) = some e ∧ countAt l i = e.count ∧
      (modifyCount f l i).find? (fun e => e.ip.Equal a) = some { e with count := f e.count } ∧
      countAt (modifyCount f l i) i = f e.count ∧
      (modifyCount f l i).length = l.length := by
  induction l generalizing i with
  | nil => simp [findIP] at h
  | cons e rest ih =>
    by_cases he : e.ip.Equal a = true
    · simp [findIP, he] at h
      subst h
      exact ⟨e, by simp [List.find?_cons, he], rfl,
        by simp [modifyCount, List.find?_cons, he], rfl, by simp [modifyCount]⟩
    · cases hr : findIP rest a with
      | none => simp [findIP, he, hr] at h
      | some j =>
        simp [findIP, he, hr] at h
        subst h
        obtain ⟨x, h1, h2, h3, h4, h5⟩ := ih j hr
        exact ⟨x, by simp [List.find?_cons, he, h1], by simp [countAt, h2],
          by simp [modifyCount, List.find?_cons, he, h3], by simp [modifyCount, countAt, h4],
          by simp [modifyCount, h5]⟩

theorem modifyCount_append_length (f : Nat → Nat) (l : List connectedIP) (e : connectedIP) :
    modifyCount f (l ++ [e]) l.length = l ++ [{ e with count := f e.count }] := by
  induction l with
  | nil => rfl
  | cons x rest ih => simp [modifyCount, ih]

theorem countAt_append_length (l : List connectedIP) (e : connectedIP) :
    countAt (l ++ [e]) l.length = e.count := by
  induction l with
  | nil => rfl
  | cons x rest ih => simp [countAt, ih]

/-- Effect of a write through the found pointer on the number of active counters. -/
theorem countP_modifyCount (f : Nat → Nat) (l : List connectedIP) (a : IP) (i : Nat)
    (h : findIP l a = some i) :
    (modifyCount f l i).countP (fun e => decide (e.count > 0)) +
        (if countAt l i > 0 then 1 else 0) =
      l.countP (fun e => decide (e.count > 0)) +
        (if f (countAt l i) > 0 then 1 else 0) := by
  induction l generalizing i with
  | nil => simp [findIP] at h
  | cons e rest ih =>
    by_cases he : e.ip.Equal a = true
    · simp [findIP, he] at h
      subst h
      simp only [modifyCount, countAt, List.countP_cons]
      by_cases h1 : e.count > 0 <;> by_cases h2 : f e.count > 0 <;> simp [h1, h2]
    · cases hr : findIP rest a with
      | none => simp [findIP, he, hr] at h
      | some j =>
        simp [findIP, he, hr] at h
        subst h
        have := ih j hr
        simp only [modifyCount, countAt, List.countP_cons]
        omega

/-! ## Lemmas on the state after a call -/

theorem countersOf_established (c : connLimitMap) (id : String) (a : IP) :
    countersOf (OnConnectionEstablished c id a).1 id =
      match findIP (countersOf c id) a with
      | some i => modifyCount (fun n => (n + 1) % uint32Size) (countersOf c id) i
      | none => countersOf c id ++ [{ ip := a, count := 1 }] := by
  have h1 : (0 + 1) % uint32Size = 1 := by decide
  unfold OnConnectionEstablished incrementConnectionsCounter countersOf
  cases c.connectedIPs id with
  | none => simp [findIP, modifyCount, h1]
  | some l =>
    cases hf : findIP l a with
    | none => simp [hf, modifyCount_append_length, h1]
    | some i => simp [hf]

theorem countersOf_established_ne (c : connLimitMap) (id id1 : String) (a : IP)
    (h : id1 ≠ id) :
    (OnConnectionEstablished c id a).1.connectedIPs id1 = c.connectedIPs id1 := by
  simp [OnConnectionEstablished, incrementConnectionsCounter, Function.update_noteq h]

theorem maxAllowed_established (c : connLimitMap) (id id1 : String) (a : IP) :
    maxAllowed (OnConnectionEstablished c id a).1 id1 = maxAllowed c id1 := rfl

/-- The three panics and the normal return of `OnConnectionLost`, case by case. -/
theorem OnConnectionLost_cases (c : connLimitMap) (id : String) (a : IP) :
    (c.connectedIPs id = none ∧ OnConnectionLost c id a = .error (.unexistingId, c)) ∨
    (∃ l, c.connectedIPs id = some l ∧ findIP l a = none ∧
      OnConnectionLost c id a = .error (.unconnectedIP, c)) ∨
    (∃ l i, c.connectedIPs id = some l ∧ findIP l a = some i ∧ countAt l i = 0 ∧
      OnConnectionLost c id a = .error (.zeroCounter, c)) ∨
    (∃ l i, c.connectedIPs id = some l ∧ findIP l a = some i ∧ 0 < countAt l i ∧
      OnConnectionLost c id a =
        .ok { c with connectedIPs :=
          Function.update c.connectedIPs id (some (modifyCount (fun n => n - 1) l i)) }) := by
  cases hc : c.connectedIPs id with
  | none => exact Or.inl ⟨rfl, by simp [OnConnectionLost, decrementConnectionsCounter, hc]⟩
  | some l =>
    cases hf : findIP l a with
    | none =>
      exact Or.inr (Or.inl ⟨l, rfl, hf,
        by simp [OnConnectionLost, decrementConnectionsCounter, hc, hf]⟩)
    | some i =>
      by_cases h0 : countAt l i = 0
      · exact Or.inr (Or.inr (Or.inl ⟨l, i, rfl, hf, h0,
          by simp [OnConnectionLost, decrementConnectionsCounter, hc, hf, h0]⟩))
      · exact Or.inr (Or.inr (Or.inr ⟨l, i, rfl, hf, Nat.pos_of_ne_zero h0,
          by simp [OnConnectionLost, decrementConnectionsCounter, hc, hf, h0]⟩))

/-- Number of active addresses after one call on `id`, seen from the same identifier. -/
theorem activeAddresses_established_le (c : connLimitMap) (id : String) (a : IP) :
    activeAddresses (OnConnectionEstablished c id a).1 id ≤
      activeAddresses c id + (if alreadyHasConnection c id a then 0 else 1) := by
  unfold activeAddresses
  rw [countersOf_established]
  cases hf : findIP (countersOf c id) a with
  | none =>
    simp only [List.countP_append]
    have : alreadyHasConnection c id a = false := by
      rw [Bool.eq_false_iff, Ne, alreadyHasConnection_iff]
      rintro ⟨e, he, _⟩
      rw [counterFor, (findIP_none_iff _ _).mp hf] at he
      cases he
    simp [this]
  | some i =>
    have hc := countP_modifyCount (fun n => (n + 1) % uint32Size) _ a i hf
    obtain ⟨e, he1, he2, -⟩ := findIP_some (fun n => (n + 1) % uint32Size) _ a i hf
    simp only []
    by_cases hp : e.count > 0
    · have : alreadyHasConnection c id a = true :=
        (alreadyHasConnection_iff c id a).mpr ⟨e, he1, hp⟩
      rw [he2] at hc
      simp only [hp, if_true] at hc
      simp only [this, if_true]
      split at hc <;> omega
    · have : alreadyHasConnection c id a = false := by
        rw [Bool.eq_false_iff, Ne, alreadyHasConnection_iff]
        rintro ⟨x, hx, hx0⟩
        rw [counterFor] at hx
        rw [he1] at hx
        cases hx
        exact hp hx0
      rw [he2] at hc
      simp only [hp, if_false] at hc
      simp only [this, Bool.false_eq_true, if_false]
      split at hc <;> omega

theorem activeAddresses_lost_le (c c1 : connLimitMap) (id id1 : String) (a : IP)
    (h : OnConnectionLost c id a = .ok c1) :
    activeAddresses c1 id1 ≤ activeAddresses c id1 ∧ maxAllowed c1 id1 = maxAllowed c id1 := by
  rcases OnConnectionLost_cases c id a with ⟨_, h1⟩ | ⟨_, _, _, h1⟩ | ⟨_, _, _, _, _, h1⟩ |
    ⟨l, i, hl, hf, hpos, h1⟩
  · rw [h1] at h; cases h
  · rw [h1] at h; cases h
  · rw [h1] at h; cases h
  · rw [h1] at h
    injection h with h
    subst h
    refine ⟨?_, rfl⟩
    by_cases hid : id1 = id
    · subst hid
      have hc := countP_modifyCount (fun n => n - 1) l a i hf
      simp only [activeAddresses, countersOf, Function.update_same, hl, Option.getD_some]
      simp only [hpos, if_true] at hc
      split at hc <;> omega
    · simp [activeAddresses, countersOf, Function.update_noteq hid]

theorem countFor_of_findIP (f : Nat → Nat) (c : connLimitMap) (id : String) (a : IP)
    (l : List connectedIP) (i : Nat) (hl : c.connectedIPs id = some l)
    (hf : findIP l a = some i) :
    countFor c id a = some (countAt l i) ∧
      countFor
          { c with
            connectedIPs := Function.update c.connectedIPs id (some (modifyCount f l i)) }
          id a = some (f (countAt l i)) := by
  obtain ⟨e, h1, h2, h3, -⟩ := findIP_some f l a i hf
  constructor
  · simp [countFor, counterFor, countersOf, hl, h1, h2]
  · simp [countFor, counterFor, countersOf, h3, h2]

theorem countFor_none_of_findIP (c : connLimitMap) (id : String) (a : IP)
    (l : List connectedIP) (hl : c.connectedIPs id = some l) (hf : findIP l a = none) :
    countFor c id a = none := by
  simp [countFor, counterFor, countersOf, hl, (findIP_none_iff l a).mp hf]

theorem activeAddresses_fresh (allowed : List AllowedConnections) (dbg : Bool) (id : String) :
    activeAddresses (MakeConnLimitInfo allowed dbg) id = 0 := rfl

/-- An admitted address already holds a connection or finds the identifier below its
limit, on either build. -/
theorem canEstablish_true_cases (w : IntSize) (c : connLimitMap) (id : String) (a : IP)
    (h : CanEstablishNewConnection w c id a = true) :
    alreadyHasConnection c id a = true ∨ activeAddresses c id < maxAllowed c id := by
  rw [CanEstablishNewConnection_def, Bool.or_eq_true, decide_eq_true_eq,
    connectedIPsForID_eq, maxAllowedConnectionsAt_eq] at h
  rcases h with h | h
  · exact Or.inl h
  · have := intOfUint32_le w (maxAllowed c id)
    exact Or.inr (by omega)

/-- One call that follows the caller protocol keeps every identifier within its limit. -/
theorem step_keeps_limit (w : IntSize) (c c1 : connLimitMap) (op : Op)
    (hp : permitted w c op = true)
    (hs : step c op = some c1) (hinv : ∀ id, activeAddresses c id ≤ maxAllowed c id)
    (id : String) : activeAddresses c1 id ≤ maxAllowed c1 id := by
  cases op with
  | canEstablish i a =>
    simp only [step, Option.some.injEq] at hs
    subst hs
    exact hinv id
  | established i a =>
    simp only [step, Option.some.injEq] at hs
    subst hs
    rw [maxAllowed_established]
    by_cases hid : id = i
    · subst hid
      have hle := activeAddresses_established_le c id a
      have hi := hinv id
      simp only [permitted] at hp
      rcases canEstablish_true_cases w c id a hp with hp | hp
      · simp only [hp, if_true] at hle
        omega
      · split at hle <;> omega
    · have : countersOf (OnConnectionEstablished c i a).1 id = countersOf c id := by
        simp [countersOf, countersOf_established_ne c i id a hid]
      simp only [activeAddresses, this]
      exact hinv id
  | lost i a =>
    simp only [step] at hs
    cases hr : OnConnectionLost c i a with
    | error p => simp [hr] at hs
    | ok c2 =>
      simp only [hr, Option.some.injEq] at hs
      subst hs
      obtain ⟨h1, h2⟩ := activeAddresses_lost_le c c2 i id a hr
      have := hinv id
      omega

theorem runGuarded_keeps_limit (w : IntSize) (ops : List Op) (c0 c : connLimitMap)
    (h0 : ∀ id, activeAddresses c0 id ≤ maxAllowed c0 id)
    (h : runGuarded w c0 ops = some c) (id : String) :
    activeAddresses c id ≤ maxAllowed c id := by
  induction ops generalizing c0 with
  | nil =>
    simp only [runGuarded, Option.some.injEq] at h
    subst h
    exact h0 id
  | cons op ops ih =>
    simp only [runGuarded] at h
    by_cases hp : permitted w c0 op = true
    · simp only [hp, if_true] at h
      cases hs : step c0 op with
      | none => simp [hs] at h
      | some c1 =>
        simp only [hs] at h
        exact ih c1 (fun j => step_keeps_limit w c0 c1 op hp hs h0 j) h
    · simp [hp] at h

theorem countFor_pos_iff (c : connLimitMap) (id : String) (a : IP) :
    (∃ n, countFor c id a = some n ∧ n > 0) ↔
      ∃ e, counterFor c id a = some e ∧ e.count > 0 := by
  unfold countFor
  constructor
  · rintro ⟨n, hn, hpos⟩
    cases he : counterFor c id a with
    | none => simp [he] at hn
    | some e =>
      simp only [he, Option.map_some', Option.some.injEq] at hn
      exact ⟨e, rfl, by omega⟩
  · rintro ⟨e, he, hpos⟩
    exact ⟨e.count, by simp [he], hpos⟩

/-- The admission test in terms of the observations, with the limit as the Go `int` it
is converted to. -/
theorem canEstablish_true_iff_int (w : IntSize) (c : connLimitMap) (id : String) (a : IP) :
    CanEstablishNewConnection w c id a = true ↔
      (∃ n, countFor c id a = some n ∧ n > 0) ∨
        (activeAddresses c id : Int) < intOfUint32 w (maxAllowed c id) := by
  simp only [CanEstablishNewConnection_def, Bool.or_eq_true, decide_eq_true_eq,
    connectedIPsForID_eq, maxAllowedConnectionsAt_eq, alreadyHasConnection_iff,
    countFor_pos_iff]

/-- The admission test in terms of the observations, where the conversion of the limit to
`int` keeps its value. -/
theorem canEstablish_true_iff (w : IntSize) (c : connLimitMap) (id : String) (a : IP)
    (hw : w = .bits64 ∨ maxAllowed c id < 2 ^ 31) :
    CanEstablishNewConnection w c id a = true ↔
      (∃ n, countFor c id a = some n ∧ n > 0) ∨ activeAddresses c id < maxAllowed c id := by
  rw [canEstablish_true_iff_int, intOfUint32_eq w _ hw, Nat.cast_lt]

theorem canEstablish_of_pos (w : IntSize) (c : connLimitMap) (id : String) (a : IP) (n : Nat)
    (h : countFor c id a = some n) (hn : n > 0) :
    CanEstablishNewConnection w c id a = true :=
  (canEstablish_true_iff_int w c id a).mpr (Or.inl ⟨n, h, hn⟩)

theorem canEstablish_true_imp (w : IntSize) (c : connLimitMap) (id : String) (a : IP)
    (h : CanEstablishNewConnection w c id a = true) :
    (∃ n, countFor c id a = some n ∧ n > 0) ∨ activeAddresses c id < maxAllowed c id := by
  rcases (canEstablish_true_iff_int w c id a).mp h with h1 | h1
  · exact Or.inl h1
  · have := intOfUint32_le w (maxAllowed c id)
    exact Or.inr (by omega)

theorem established_absent (c : connLimitMap) (id : String) (a : IP)
    (h : countFor c id a = none) :
    countersOf (OnConnectionEstablished c id a).1 id =
        countersOf c id ++ [{ ip := a, count := 1 }] ∧
      countFor (OnConnectionEstablished c id a).1 id a = some 1 := by
  have hnone : (countersOf c id).find? (fun e => e.ip.Equal a) = none := by
    cases hx : (countersOf c id).find? (fun e => e.ip.Equal a) with
    | none => rfl
    | some e => simp [countFor, counterFor, hx] at h
  have hf := (findIP_none_iff _ a).mpr hnone
  have hl := countersOf_established c id a
  rw [hf] at hl
  refine ⟨hl, ?_⟩
  simp only [countFor, counterFor, hl, List.find?_append, hnone, Option.none_or]
  simp [List.find?_cons, IP.Equal_refl]

theorem established_present (c : connLimitMap) (id : String) (a : IP) (n : Nat)
    (h : countFor c id a = some n) :
    (countersOf (OnConnectionEstablished c id a).1 id).length = (countersOf c id).length ∧
      countFor (OnConnectionEstablished c id a).1 id a = some ((n + 1) % 2 ^ 32) := by
  cases hf : findIP (countersOf c id) a with
  | none =>
    have := (findIP_none_iff _ a).mp hf
    simp [countFor, counterFor, this] at h
  | some i =>
    have hl := countersOf_established c id a
    rw [hf] at hl
    obtain ⟨e, h1, h2, h3, h4, h5⟩ :=
      findIP_some (fun n => (n + 1) % uint32Size) (countersOf c id) a i hf
    simp only [countFor, counterFor, h1, Option.map_some', Option.some.injEq] at h
    simp only [] at hl
    refine ⟨by rw [hl, h5], ?_⟩
    rw [countFor, counterFor, hl, h3]
    simp [h, uint32Size]

/-- A counter with a positive count is one of the active addresses. -/
theorem activeAddresses_pos_of_countFor (c : connLimitMap) (id : String) (a : IP) (n : Nat)
    (h : countFor c id a = some n) (hn : n > 0) : 0 < activeAddresses c id := by
  obtain ⟨e, he, hpos⟩ := (countFor_pos_iff c id a).mp ⟨n, h, hn⟩
  have hmem : e ∈ countersOf c id := List.mem_of_find?_eq_some he
  exact List.countP_pos_iff.mpr ⟨e, hmem, by simpa using hpos⟩

/-- The policy map built by `MakeConnLimitInfo`: the last entry of the list for `id`. -/
theorem foldl_policy (l : List AllowedConnections) (m : String → Option Nat) (id : String) :
    (l.foldl (fun (f : String → Option Nat) (e : AllowedConnections) =>
        Function.update f e.Id (some e.MaxConnections)) m) id =
      match l.reverse.find? (fun e => decide (e.Id = id)) with
      | some e => some e.MaxConnections
      | none => m id := by
  induction l generalizing m with
  | nil => rfl
  | cons e r ih =>
    rw [List.foldl_cons, ih, List.reverse_cons, List.find?_append]
    cases hr : r.reverse.find? (fun e => decide (e.Id = id)) with
    | some x => rfl
    | none =>
      by_cases he : e.Id = id
      · subst he
        simp [List.find?_cons]
      · have hne : id ≠ e.Id := fun h => he h.symm
        simp [List.find?_cons, he, Function.update_noteq hne]

theorem maxAllowed_fresh_of_absent (allowed : List AllowedConnections) (dbg : Bool)
    (id : String) (hid : ∀ e ∈ allowed, e.Id ≠ id) :
    maxAllowed (MakeConnLimitInfo allowed dbg) id = 0 := by
  have hnone : allowed.reverse.find? (fun e => decide (e.Id = id)) = none := by
    rw [List.find?_eq_none]
    intro e he
    simpa using hid e (List.mem_reverse.mp he)
  simp [maxAllowed, MakeConnLimitInfo, foldl_policy, hnone]

theorem step_policy (c c1 : connLimitMap) (op : Op) (hs : step c op = some c1) :
    c1.maxAllowedConnections = c.maxAllowedConnections := by
  cases op with
  | canEstablish i a =>
    simp only [step, Option.some.injEq] at hs
    subst hs; rfl
  | established i a =>
    simp only [step, Option.some.injEq] at hs
    subst hs; rfl
  | lost i a =>
    simp only [step] at hs
    rcases OnConnectionLost_cases c i a with ⟨_, h1⟩ | ⟨_, _, _, h1⟩ | ⟨_, _, _, _, _, h1⟩ |
      ⟨l, j, hl, hf, hpos, h1⟩
    · simp [h1] at hs
    · simp [h1] at hs
    · simp [h1] at hs
    · simp only [h1, Option.some.injEq] at hs
      subst hs; rfl

theorem runGuarded_policy (w : IntSize) (ops : List Op) (c0 c : connLimitMap)
    (h : runGuarded w c0 ops = some c) :
    c.maxAllowedConnections = c0.maxAllowedConnections := by
  induction ops generalizing c0 with
  | nil =>
    simp only [runGuarded, Option.some.injEq] at h
    subst h; rfl
  | cons op ops ih =>
    simp only [runGuarded] at h
    by_cases hp : permitted w c0 op = true
    · simp only [hp, if_true] at h
      cases hs : step c0 op with
      | none => simp [hs] at h
      | some c1 =>
        simp only [hs] at h
        rw [ih c1 h, step_policy c0 c1 op hs]
    · simp [hp] at h

/-! ## The contract -/

/-- C1 as stated fails on a build whose `int` has 32 bits: with limit `2 ^ 32 - 1` for
`"svc"` and one active address, `int(limit)` is `-1`, so a new address is refused although
the number of active addresses, 1, is below the limit. -/
theorem canEstablishNewConnection_iff_fails_on_32bit :
    CanEstablishNewConnection .bits32
      (OnConnectionEstablished (MakeConnLimitInfo [⟨"svc", 4294967295⟩] false) "svc"
        [10, 0, 0, 1]).1 "svc" [10, 0, 0, 2] = false ∧
    activeAddresses
        (OnConnectionEstablished (MakeConnLimitInfo [⟨"svc", 4294967295⟩] false) "svc"
          [10, 0, 0, 1]).1 "svc" <
      maxAllowed
        (OnConnectionEstablished (MakeConnLimitInfo [⟨"svc", 4294967295⟩] false) "svc"
          [10, 0, 0, 1]).1 "svc" ∧
    ¬ (CanEstablishNewConnection .bits32
        (OnConnectionEstablished (MakeConnLimitInfo [⟨"svc", 4294967295⟩] false) "svc"
          [10, 0, 0, 1]).1 "svc" [10, 0, 0, 2] = true ↔
      (∃ n, countFor
          (OnConnectionEstablished (MakeConnLimitInfo [⟨"svc", 4294967295⟩] false) "svc"
            [10, 0, 0, 1]).1 "svc" [10, 0, 0, 2] = some n ∧ n > 0) ∨
        activeAddresses
            (OnConnectionEstablished (MakeConnLimitInfo [⟨"svc", 4294967295⟩] false) "svc"
              [10, 0, 0, 1]).1 "svc" <
          maxAllowed
            (OnConnectionEstablished (MakeConnLimitInfo [⟨"svc", 4294967295⟩] false) "svc"
              [10, 0, 0, 1]).1 "svc") := by
  have h1 : CanEstablishNewConnection .bits32
      (OnConnectionEstablished (MakeConnLimitInfo [⟨"svc", 4294967295⟩] false) "svc"
        [10, 0, 0, 1]).1 "svc" [10, 0, 0, 2] = false := by decide
  have h2 : activeAddresses
        (OnConnectionEstablished (MakeConnLimitInfo [⟨"svc", 4294967295⟩] false) "svc"
          [10, 0, 0, 1]).1 "svc" <
      maxAllowed
        (OnConnectionEstablished (MakeConnLimitInfo [⟨"svc", 4294967295⟩] false) "svc"
          [10, 0, 0, 1]).1 "svc" := by decide
  refine ⟨h1, h2, fun hiff => ?_⟩
  have := hiff.mpr (Or.inr h2)
  rw [h1] at this
  cases this

/-- C1 (amended): on a build whose `int` has 64 bits, or when `maxAllowed(id) < 2 ^ 31`,
`CanEstablishNewConnection(id, a)` returns true exactly when the counter of `a` under `id`
has a positive count or fewer than `maxAllowed(id)` counters under `id` have a positive
count; an identifier without a policy entry has limit 0 and an identifier without
counters has 0 active addresses. -/
theorem canEstablishNewConnection_iff (w : IntSize) (c : connLimitMap) (id : String)
    (a : IP) (hw : w = .bits64 ∨ maxAllowed c id < 2 ^ 31) :
    (CanEstablishNewConnection w c id a = true ↔
      (∃ n, countFor c id a = some n ∧ n > 0) ∨ activeAddresses c id < maxAllowed c id) ∧
    (c.maxAllowedConnections id = none → maxAllowed c id = 0) ∧
    (c.connectedIPs id = none → activeAddresses c id = 0) := by
  refine ⟨canEstablish_true_iff w c id a hw, ?_, ?_⟩
  · intro h
    simp [maxAllowed, h]
  · intro h
    simp [activeAddresses, countersOf, h]

theorem canEstablishNewConnection_iff_witness :
    CanEstablishNewConnection .bits32 (MakeConnLimitInfo [⟨"svc", 2⟩] false) "svc"
      [10, 0, 0, 1] = true :=
  (canEstablishNewConnection_iff .bits32 (MakeConnLimitInfo [⟨"svc", 2⟩] false) "svc"
    [10, 0, 0, 1] (Or.inr (by decide))).1.mpr (Or.inr (by decide))

/-- C2: from a fresh registry, after any sequence of calls in which every
`OnConnectionEstablished(id, a)` is issued in a state where
`CanEstablishNewConnection(id, a)` is true and no `OnConnectionLost` panics, every
identifier has at most `maxAllowed(id)` addresses with a positive count. -/
theorem guarded_active_le_maxAllowed (w : IntSize) (allowed : List AllowedConnections)
    (dbg : Bool) (ops : List Op) (c : connLimitMap)
    (h : runGuarded w (MakeConnLimitInfo allowed dbg) ops = some c) (id : String) :
    activeAddresses c id ≤ maxAllowed c id :=
  runGuarded_keeps_limit w ops (MakeConnLimitInfo allowed dbg) c
    (fun j => by rw [activeAddresses_fresh]; exact Nat.zero_le _) h id

theorem guarded_active_le_maxAllowed_witness :
    ∃ c, runGuarded .bits64 (MakeConnLimitInfo [⟨"svc", 1⟩] false)
        [.canEstablish "svc" [10, 0, 0, 1], .established "svc" [10, 0, 0, 1],
          .established "svc" [10, 0, 0, 1], .lost "svc" [10, 0, 0, 1],
          .lost "svc" [10, 0, 0, 1], .established "svc" [10, 0, 0, 2]] = some c ∧
      activeAddresses c "svc" ≤ maxAllowed c "svc" :=
  ⟨_, rfl, guarded_active_le_maxAllowed .bits64 [⟨"svc", 1⟩] false
    [.canEstablish "svc" [10, 0, 0, 1], .established "svc" [10, 0, 0, 1],
      .established "svc" [10, 0, 0, 1], .lost "svc" [10, 0, 0, 1],
      .lost "svc" [10, 0, 0, 1], .established "svc" [10, 0, 0, 2]] _ rfl "svc"⟩

/-- C3: `OnConnectionEstablished(id, a)` returns true; when `(id, a)` has no counter, a
counter for `a` with count 1 is appended to the list of `id`; otherwise the list keeps its
length and the count of the counter for `(id, a)` becomes the previous count plus one
modulo `2 ^ 32`. -/
theorem onConnectionEstablished_increments (c : connLimitMap) (id : String) (a : IP) :
    (OnConnectionEstablished c id a).2 = true ∧
    (countFor c id a = none →
      countersOf (OnConnectionEstablished c id a).1 id =
          countersOf c id ++ [{ ip := a, count := 1 }] ∧
        countFor (OnConnectionEstablished c id a).1 id a = some 1) ∧
    (∀ n, countFor c id a = some n →
      (countersOf (OnConnectionEstablished c id a).1 id).length = (countersOf c id).length ∧
        countFor (OnConnectionEstablished c id a).1 id a = some ((n + 1) % 2 ^ 32)) := by
  exact ⟨rfl, established_absent c id a, established_present c id a⟩

theorem onConnectionEstablished_increments_witness :
    countFor (OnConnectionEstablished (MakeConnLimitInfo [] false) "svc" [10, 0, 0, 1]).1
      "svc" [10, 0, 0, 1] = some 1 :=
  ((onConnectionEstablished_increments (MakeConnLimitInfo [] false) "svc"
    [10, 0, 0, 1]).2.1 rfl).2

/-- C4: `OnConnectionLost(id, a)` panics if and only if `id` has no counter list, or no
counter under `id` has an address equal to `a`, or the counter for `(id, a)` has count 0;
in every other state, and only there, it returns normally. -/
theorem onConnectionLost_panics_iff (c : connLimitMap) (id : String) (a : IP) :
    ((∃ p, OnConnectionLost c id a = .error p) ↔
      (c.connectedIPs id = none ∨ (∀ e ∈ countersOf c id, e.ip.Equal a = false) ∨
        countFor c id a = some 0)) ∧
    ((∃ c1, OnConnectionLost c id a = .ok c1) ↔
      ¬ (c.connectedIPs id = none ∨ (∀ e ∈ countersOf c id, e.ip.Equal a = false) ∨
        countFor c id a = some 0)) := by
  have key :
      ((c.connectedIPs id = none ∨ (∀ e ∈ countersOf c id, e.ip.Equal a = false) ∨
          countFor c id a = some 0) ∧ ∃ p, OnConnectionLost c id a = .error p) ∨
      (¬ (c.connectedIPs id = none ∨ (∀ e ∈ countersOf c id, e.ip.Equal a = false) ∨
          countFor c id a = some 0) ∧ ∃ c1, OnConnectionLost c id a = .ok c1) := by
    rcases OnConnectionLost_cases c id a with ⟨hl, h1⟩ | ⟨l, hl, hf, h1⟩ |
      ⟨l, i, hl, hf, h0, h1⟩ | ⟨l, i, hl, hf, hpos, h1⟩
    · exact Or.inl ⟨Or.inl hl, _, h1⟩
    · refine Or.inl ⟨Or.inr (Or.inl ?_), _, h1⟩
      have := (findIP_none_iff l a).mp hf
      simpa [countersOf, hl, List.find?_eq_none] using this
    · refine Or.inl ⟨Or.inr (Or.inr ?_), _, h1⟩
      rw [(countFor_of_findIP (fun n => n) c id a l i hl hf).1, h0]
    · refine Or.inr ⟨?_, _, h1⟩
      have hc := (countFor_of_findIP (fun n => n) c id a l i hl hf).1
      rintro (h | h | h)
      · rw [hl] at h; cases h
      · have hn : countFor c id a = none := by
          have : (countersOf c id).find? (fun e => e.ip.Equal a) = none := by
            simpa [List.find?_eq_none] using h
          simp [countFor, counterFor, this]
        rw [hn] at hc; cases hc
      · rw [hc] at h
        injection h with h
        omega
  rcases key with ⟨hP, p, hp⟩ | ⟨hP, c1, hc1⟩
  · refine ⟨⟨fun _ => hP, fun _ => ⟨p, hp⟩⟩, ⟨?_, fun h => absurd hP h⟩⟩
    rintro ⟨c1, hc1⟩
    rw [hp] at hc1
    cases hc1
  · refine ⟨⟨?_, fun h => absurd h hP⟩, ⟨fun _ => hP, fun _ => ⟨c1, hc1⟩⟩⟩
    rintro ⟨p, hp⟩
    rw [hc1] at hp
    cases hp

/-- C5: when the counter for `(id, a)` has count `n > 0`, `OnConnectionLost(id, a)`
returns normally and the count of `(id, a)` afterwards is `n - 1`. -/
theorem onConnectionLost_decrements (c : connLimitMap) (id : String) (a : IP) (n : Nat)
    (h : countFor c id a = some n) (hn : n > 0) :
    ∃ c1, OnConnectionLost c id a = .ok c1 ∧ countFor c1 id a = some (n - 1) := by
  rcases OnConnectionLost_cases c id a with ⟨hl, -⟩ | ⟨l, hl, hf, -⟩ |
    ⟨l, i, hl, hf, h0, -⟩ | ⟨l, i, hl, hf, hpos, h1⟩
  · simp [countFor, counterFor, countersOf, hl] at h
  · rw [countFor_none_of_findIP c id a l hl hf] at h
    cases h
  · rw [(countFor_of_findIP (fun n => n) c id a l i hl hf).1, h0] at h
    injection h with h
    omega
  · have hc := countFor_of_findIP (fun n => n - 1) c id a l i hl hf
    rw [hc.1] at h
    injection h with h
    refine ⟨_, h1, ?_⟩
    rw [hc.2, h]

theorem onConnectionLost_decrements_witness :
    ∃ c1, OnConnectionLost
        (OnConnectionEstablished (MakeConnLimitInfo [⟨"svc", 2⟩] false) "svc" [10, 0, 0, 1]).1
        "svc" [10, 0, 0, 1] = .ok c1 ∧
      countFor c1 "svc" [10, 0, 0, 1] = some (1 - 1) :=
  onConnectionLost_decrements _ "svc" [10, 0, 0, 1] 1 (by decide) (by decide)

/-- C6: when the count of `(id, a)` is absent or below `2 ^ 32 - 1`, then right after
`OnConnectionEstablished(id, a)` the call `CanEstablishNewConnection(id, a)` returns true,
whatever the limit of `id` and the number of other active addresses. -/
theorem canEstablish_after_established (w : IntSize) (c : connLimitMap) (id : String)
    (a : IP) (h : ∀ n, countFor c id a = some n → n < 2 ^ 32 - 1) :
    CanEstablishNewConnection w (OnConnectionEstablished c id a).1 id a = true := by
  cases hc : countFor c id a with
  | none => exact canEstablish_of_pos w _ id a 1 (established_absent c id a hc).2 (by decide)
  | some n =>
    have hn := h n hc
    refine canEstablish_of_pos w _ id a ((n + 1) % 2 ^ 32)
      (established_present c id a n hc).2 ?_
    rw [Nat.mod_eq_of_lt (by omega)]
    omega

theorem canEstablish_after_established_witness :
    CanEstablishNewConnection .bits64
      (OnConnectionEstablished
        (OnConnectionEstablished (MakeConnLimitInfo [] false) "svc" [10, 0, 0, 2]).1
        "svc" [10, 0, 0, 1]).1 "svc" [10, 0, 0, 1] = true :=
  canEstablish_after_established .bits64
    (OnConnectionEstablished (MakeConnLimitInfo [] false) "svc" [10, 0, 0, 2]).1
    "svc" [10, 0, 0, 1] (fun n hn => by
      have h0 : countFor
          (OnConnectionEstablished (MakeConnLimitInfo [] false) "svc" [10, 0, 0, 2]).1
          "svc" [10, 0, 0, 1] = none := by decide
      rw [h0] at hn
      cases hn)

/-- C7: an identifier without an entry in the policy given to `MakeConnLimitInfo` never
admits a connection: in every state reached from the fresh registry by calls that follow
the caller protocol, `CanEstablishNewConnection(id, a)` is false for every address. -/
theorem unknown_identifier_rejected (w : IntSize) (allowed : List AllowedConnections)
    (dbg : Bool) (ops : List Op) (c : connLimitMap) (id : String)
    (hid : ∀ e ∈ allowed, e.Id ≠ id)
    (h : runGuarded w (MakeConnLimitInfo allowed dbg) ops = some c) (a : IP) :
    CanEstablishNewConnection w c id a = false := by
  have hmax : maxAllowed c id = 0 := by
    have := maxAllowed_fresh_of_absent allowed dbg id hid
    simpa [maxAllowed, runGuarded_policy w ops _ c h] using this
  have hact : activeAddresses c id ≤ maxAllowed c id :=
    runGuarded_keeps_limit w ops (MakeConnLimitInfo allowed dbg) c
      (fun j => by rw [activeAddresses_fresh]; exact Nat.zero_le _) h id
  rw [Bool.eq_false_iff, Ne]
  intro hcan
  rcases canEstablish_true_imp w c id a hcan with ⟨n, hn, hpos⟩ | hlt
  · have := activeAddresses_pos_of_countFor c id a n hn hpos
    omega
  · omega

theorem unknown_identifier_rejected_witness :
    ∃ c, runGuarded .bits64 (MakeConnLimitInfo [⟨"svc", 2⟩] false)
        [.established "svc" [10, 0, 0, 1], .canEstablish "other" [10, 0, 0, 1],
          .lost "svc" [10, 0, 0, 1]] = some c ∧
      CanEstablishNewConnection .bits64 c "other" [10, 0, 0, 1] = false :=
  ⟨_, rfl, unknown_identifier_rejected .bits64 [⟨"svc", 2⟩] false
    [.established "svc" [10, 0, 0, 1], .canEstablish "other" [10, 0, 0, 1],
      .lost "svc" [10, 0, 0, 1]] _ "other" (by decide) rfl [10, 0, 0, 1]⟩

/-- C8 as stated fails on a build whose `int` has 32 bits: with limit `2 ^ 31` the fresh
registry refuses an address although `maxAllowed` is positive, because `int(limit)` is
negative. -/
theorem fresh_registry_refuses_on_32bit :
    CanEstablishNewConnection .bits32 (MakeConnLimitInfo [⟨"svc", 2147483648⟩] false) "svc"
      [10, 0, 0, 1] = false ∧
    maxAllowed (MakeConnLimitInfo [⟨"svc", 2147483648⟩] false) "svc" > 0 ∧
    ¬ (CanEstablishNewConnection .bits32 (MakeConnLimitInfo [⟨"svc", 2147483648⟩] false)
        "svc" [10, 0, 0, 1] = true ↔
      maxAllowed (MakeConnLimitInfo [⟨"svc", 2147483648⟩] false) "svc" > 0) := by
  have h1 : CanEstablishNewConnection .bits32
      (MakeConnLimitInfo [⟨"svc", 2147483648⟩] false) "svc" [10, 0, 0, 1] = false := by
    decide
  have h2 : maxAllowed (MakeConnLimitInfo [⟨"svc", 2147483648⟩] false) "svc" > 0 := by
    decide
  refine ⟨h1, h2, fun hiff => ?_⟩
  have := hiff.mpr h2
  rw [h1] at this
  cases this

/-- C8 (amended): on the registry just returned by `MakeConnLimitInfo` no identifier has
a counter list, no pair has a counter, no address is active, the limit of `id` is the
value of the last policy entry for `id` (0 without one), and the result of
`CanEstablishNewConnection(id, a)` does not depend on the address; on a build whose `int`
has 64 bits, or when `maxAllowed(id) < 2 ^ 31`, it is true if and only if that limit is
positive. -/
theorem fresh_registry_admission (w : IntSize) (allowed : List AllowedConnections)
    (dbg : Bool) (id : String) (a : IP) :
    (MakeConnLimitInfo allowed dbg).connectedIPs id = none ∧
    countFor (MakeConnLimitInfo allowed dbg) id a = none ∧
    activeAddresses (MakeConnLimitInfo allowed dbg) id = 0 ∧
    maxAllowed (MakeConnLimitInfo allowed dbg) id =
      ((allowed.reverse.find? (fun e => decide (e.Id = id))).map
        (fun e => e.MaxConnections)).getD 0 ∧
    (w = .bits64 ∨ maxAllowed (MakeConnLimitInfo allowed dbg) id < 2 ^ 31 →
      (CanEstablishNewConnection w (MakeConnLimitInfo allowed dbg) id a = true ↔
        maxAllowed (MakeConnLimitInfo allowed dbg) id > 0)) ∧
    (∀ b, CanEstablishNewConnection w (MakeConnLimitInfo allowed dbg) id b =
      CanEstablishNewConnection w (MakeConnLimitInfo allowed dbg) id a) := by
  have hint : ∀ b, CanEstablishNewConnection w (MakeConnLimitInfo allowed dbg) id b = true ↔
      (0 : Int) < intOfUint32 w (maxAllowed (MakeConnLimitInfo allowed dbg) id) := by
    intro b
    rw [canEstablish_true_iff_int, activeAddresses_fresh]
    constructor
    · rintro (⟨n, hn, -⟩ | hlt)
      · cases hn
      · exact hlt
    · exact fun h => Or.inr h
  refine ⟨rfl, rfl, rfl, ?_, ?_, ?_⟩
  · simp only [maxAllowed, MakeConnLimitInfo, foldl_policy]
    cases allowed.reverse.find? (fun e => decide (e.Id = id)) <;> rfl
  · intro hw
    rw [hint a, intOfUint32_eq w _ hw]
    exact Nat.cast_pos
  · intro b
    rw [Bool.eq_iff_iff, hint b, hint a]

theorem fresh_registry_admission_witness :
    CanEstablishNewConnection .bits32 (MakeConnLimitInfo [⟨"svc", 2⟩] false) "svc"
        [10, 0, 0, 1] = true ↔
      maxAllowed (MakeConnLimitInfo [⟨"svc", 2⟩] false) "svc" > 0 :=
  (fresh_registry_admission .bits32 [⟨"svc", 2⟩] false "svc" [10, 0, 0, 1]).2.2.2.2.1
    (Or.inr (by decide))

/-- C9: the scenario with policy `[("svc", 2)]` and three pairwise distinct addresses
`A`, `B`, `C` on a fresh registry: `A` is admitted and recorded with count 1, `B` is
admitted and recorded with count 1, `C` is refused, `A` is admitted again and reaches
count 2, `OnConnectionLost` for `A` leaves count 1 and 2 active addresses,
`OnConnectionLost` for `B` leaves count 0 and 1 active address, and `C` is then admitted. -/
theorem scenario_svc (w : IntSize) (A B C : IP) (dbg : Bool) (hAB : A.Equal B = false)
    (hAC : A.Equal C = false) (hBC : B.Equal C = false) :
    let s0 := MakeConnLimitInfo [⟨"svc", 2⟩] dbg
    let s1 := (OnConnectionEstablished s0 "svc" A).1
    let s2 := (OnConnectionEstablished s1 "svc" B).1
    let s3 := (OnConnectionEstablished s2 "svc" A).1
    CanEstablishNewConnection w s0 "svc" A = true ∧
    (OnConnectionEstablished s0 "svc" A).2 = true ∧
    countFor s1 "svc" A = some 1 ∧
    CanEstablishNewConnection w s1 "svc" B = true ∧
    (OnConnectionEstablished s1 "svc" B).2 = true ∧
    countFor s2 "svc" B = some 1 ∧
    CanEstablishNewConnection w s2 "svc" C = false ∧
    CanEstablishNewConnection w s2 "svc" A = true ∧
    (OnConnectionEstablished s2 "svc" A).2 = true ∧
    countFor s3 "svc" A = some 2 ∧
    ∃ s4 s5, OnConnectionLost s3 "svc" A = .ok s4 ∧
      countFor s4 "svc" A = some 1 ∧ activeAddresses s4 "svc" = 2 ∧
      OnConnectionLost s4 "svc" B = .ok s5 ∧
      countFor s5 "svc" B = some 0 ∧ activeAddresses s5 "svc" = 1 ∧
      CanEstablishNewConnection w s5 "svc" C = true := by
  intro s0 s1 s2 s3
  have e1 : s1.connectedIPs "svc" = some [⟨A, 1⟩] := by
    simp [s1, s0, OnConnectionEstablished, incrementConnectionsCounter, MakeConnLimitInfo,
      findIP, modifyCount, uint32Size]
  have e2 : s2.connectedIPs "svc" = some [⟨A, 1⟩, ⟨B, 1⟩] := by
    simp [s2, OnConnectionEstablished, incrementConnectionsCounter, e1,
      findIP, modifyCount, uint32Size, hAB]
  have e3 : s3.connectedIPs "svc" = some [⟨A, 2⟩, ⟨B, 1⟩] := by
    simp [s3, OnConnectionEstablished, incrementConnectionsCounter, e2,
      findIP, modifyCount, uint32Size, IP.Equal_refl]
  have p0 : s0.maxAllowedConnections "svc" = some 2 := by
    simp [s0, MakeConnLimitInfo]
  have p1 : s1.maxAllowedConnections "svc" = some 2 := p0
  have p2 : s2.maxAllowedConnections "svc" = some 2 := p0
  have p3 : s3.maxAllowedConnections "svc" = some 2 := p0
  have e0 : s0.connectedIPs "svc" = none := rfl
  have hlim : intOfUint32 w 2 = 2 := by cases w <;> rfl
  refine ⟨?_, rfl, ?_, ?_, rfl, ?_, ?_, ?_, rfl, ?_,
    { s3 with connectedIPs := Function.update s3.connectedIPs "svc" (some [⟨A, 1⟩, ⟨B, 1⟩]) },
    { s3 with connectedIPs := Function.update s3.connectedIPs "svc" (some [⟨A, 1⟩, ⟨B, 0⟩]) },
    ?_, ?_, ?_, ?_, ?_, ?_, ?_⟩
  · simp [CanEstablishNewConnection_def, connectedIPsForID_def, alreadyHasConnection_def, hlim,
      maxAllowedConnectionsAt, e0, p0]
  · simp [countFor, counterFor, countersOf, e1, IP.Equal_refl]
  · simp [CanEstablishNewConnection_def, connectedIPsForID_def, alreadyHasConnection_def, hlim,
      maxAllowedConnectionsAt, e1, p1, connectedIPsForIDLoop, alreadyHasConnectionLoop, hAB]
  · simp [countFor, counterFor, countersOf, e2, IP.Equal_refl, hAB]
  · simp [CanEstablishNewConnection_def, connectedIPsForID_def, alreadyHasConnection_def, hlim,
      maxAllowedConnectionsAt, e2, p2, connectedIPsForIDLoop, alreadyHasConnectionLoop,
      hAC, hBC]
  · simp [CanEstablishNewConnection_def, connectedIPsForID_def, alreadyHasConnection_def, hlim,
      maxAllowedConnectionsAt, e2, p2, connectedIPsForIDLoop, alreadyHasConnectionLoop,
      IP.Equal_refl]
  · simp [countFor, counterFor, countersOf, e3, IP.Equal_refl]
  · simp [OnConnectionLost, decrementConnectionsCounter, e3, findIP, countAt, modifyCount,
      IP.Equal_refl]
  · simp [countFor, counterFor, countersOf, IP.Equal_refl]
  · simp [activeAddresses, countersOf]
  · simp [OnConnectionLost, decrementConnectionsCounter, findIP, countAt, modifyCount,
      IP.Equal_refl, hAB]
  · simp [countFor, counterFor, countersOf, IP.Equal_refl, hAB]
  · simp [activeAddresses, countersOf]
  · simp [CanEstablishNewConnection_def, connectedIPsForID_def, alreadyHasConnection_def, hlim,
      maxAllowedConnectionsAt, p3, connectedIPsForIDLoop, alreadyHasConnectionLoop,
      hAC, hBC]

theorem scenario_svc_witness :
    CanEstablishNewConnection .bits64
      (OnConnectionEstablished
        (OnConnectionEstablished (MakeConnLimitInfo [⟨"svc", 2⟩] false) "svc" [10, 0, 0, 1]).1
        "svc" [10, 0, 0, 2]).1 "svc" [10, 0, 0, 3] = false :=
  (scenario_svc .bits64 [10, 0, 0, 1] [10, 0, 0, 2] [10, 0, 0, 3] false (by decide) (by decide)
    (by decide)).2.2.2.2.2.2.1

/-- Repeated admitted connections of one address: `k` further calls add `k` to its count
as long as the `uint32` counter does not overflow. -/
theorem runGuarded_replicate_established (w : IntSize) (k : Nat) (c : connLimitMap)
    (id : String) (a : IP) (j : Nat) (hc : c.connectedIPs id = some [⟨a, j + 1⟩]) (h : j + 1 + k < 2 ^ 32) :
    runGuarded w c (List.replicate k (.established id a)) =
      some { c with
        connectedIPs := Function.update c.connectedIPs id (some [⟨a, j + 1 + k⟩]) } := by
  induction k generalizing c j with
  | zero =>
    simp only [List.replicate_zero, runGuarded, Nat.add_zero, ← hc, Function.update_eq_self]
  | succ k ih =>
    have hp : permitted w c (.established id a) = true := by
      simp [permitted, CanEstablishNewConnection_def, alreadyHasConnection_def, hc,
        alreadyHasConnectionLoop, IP.Equal_refl]
    have hmod : (j + 1 + 1) % uint32Size = j + 1 + 1 :=
      Nat.mod_eq_of_lt (by simp only [uint32Size]; omega)
    have hc1 : (OnConnectionEstablished c id a).1.connectedIPs id = some [⟨a, j + 1 + 1⟩] := by
      simp [OnConnectionEstablished, incrementConnectionsCounter, hc, findIP, modifyCount,
        IP.Equal_refl, hmod]
    rw [List.replicate_succ, runGuarded, if_pos hp]
    simp only [step]
    rw [ih (OnConnectionEstablished c id a).1 (j + 1) hc1 (by omega)]
    have harith : j + 1 + 1 + k = j + 1 + (k + 1) := by omega
    simp [OnConnectionEstablished, incrementConnectionsCounter, harith]

/-- The saturated registry is reached from the fresh one by `2 ^ 32 - 1` admitted
`OnConnectionEstablished("svc", 10.0.0.1)` calls. -/
theorem saturatedRegistry_reachable (w : IntSize) :
    runGuarded w (MakeConnLimitInfo [⟨"svc", 1⟩] false)
      (.established "svc" [10, 0, 0, 1] ::
        List.replicate 4294967294 (.established "svc" [10, 0, 0, 1])) =
      some saturatedRegistry := by
  have hp : permitted w (MakeConnLimitInfo [⟨"svc", 1⟩] false)
      (.established "svc" [10, 0, 0, 1]) = true := by cases w <;> decide
  have hc1 : (OnConnectionEstablished (MakeConnLimitInfo [⟨"svc", 1⟩] false) "svc"
      [10, 0, 0, 1]).1.connectedIPs "svc" = some [⟨[10, 0, 0, 1], 0 + 1⟩] := by decide
  rw [runGuarded, if_pos hp]
  simp only [step]
  rw [runGuarded_replicate_established w 4294967294 _ "svc" [10, 0, 0, 1] 0 hc1 (by norm_num)]
  simp [saturatedRegistry, OnConnectionEstablished, incrementConnectionsCounter,
    MakeConnLimitInfo]

/-- C10 as stated fails: on the saturated registry the `uint32` counter of
`("svc", 10.0.0.1)` is `2 ^ 32 - 1` and `OnConnectionEstablished` wraps it to 0, so two
successive calls do not always strictly increase the counter twice. -/
theorem established_twice_wraps :
    effectiveCount saturatedRegistry "svc" [10, 0, 0, 1] = 4294967295 ∧
    effectiveCount (OnConnectionEstablished saturatedRegistry "svc" [10, 0, 0, 1]).1
      "svc" [10, 0, 0, 1] = 0 ∧
    ¬ (∀ (c : connLimitMap) (id : String) (a : IP),
        effectiveCount c id a < effectiveCount (OnConnectionEstablished c id a).1 id a ∧
        effectiveCount (OnConnectionEstablished c id a).1 id a <
          effectiveCount
            (OnConnectionEstablished (OnConnectionEstablished c id a).1 id a).1 id a) := by
  have h0 : effectiveCount saturatedRegistry "svc" [10, 0, 0, 1] = 4294967295 := by
    simp [effectiveCount, countFor, counterFor, countersOf, saturatedRegistry, IP.Equal_refl]
  have h1 : effectiveCount (OnConnectionEstablished saturatedRegistry "svc" [10, 0, 0, 1]).1
      "svc" [10, 0, 0, 1] = 0 := by
    have hc : countFor saturatedRegistry "svc" [10, 0, 0, 1] = some 4294967295 := by
      simp [countFor, counterFor, countersOf, saturatedRegistry, IP.Equal_refl]
    rw [effectiveCount, (established_present _ _ _ _ hc).2]
    rfl
  refine ⟨h0, h1, fun hall => ?_⟩
  have := (hall saturatedRegistry "svc" [10, 0, 0, 1]).1
  rw [h0, h1] at this
  omega

/-- C10 (amended): when the count `n` of `(id, a)` (0 if absent) satisfies
`n + 2 < 2 ^ 32`, two successive `OnConnectionEstablished(id, a)` calls strictly increase
the counter twice. -/
theorem established_twice_increases (c : connLimitMap) (id : String) (a : IP)
    (h : effectiveCount c id a + 2 < 2 ^ 32) :
    effectiveCount c id a < effectiveCount (OnConnectionEstablished c id a).1 id a ∧
    effectiveCount (OnConnectionEstablished c id a).1 id a <
      effectiveCount (OnConnectionEstablished (OnConnectionEstablished c id a).1 id a).1
        id a := by
  have key : ∀ (s : connLimitMap) (n : Nat), effectiveCount s id a = n → n + 1 < 2 ^ 32 →
      countFor (OnConnectionEstablished s id a).1 id a = some (n + 1) := by
    intro s n hn hlt
    cases hs : countFor s id a with
    | none =>
      have : n = 0 := by rw [← hn, effectiveCount, hs]; rfl
      subst this
      exact (established_absent s id a hs).2
    | some m =>
      have : n = m := by rw [← hn, effectiveCount, hs]; rfl
      subst this
      rw [(established_present s id a n hs).2, Nat.mod_eq_of_lt hlt]
  have h1 := key c _ rfl (by omega)
  have e1 : effectiveCount (OnConnectionEstablished c id a).1 id a =
      effectiveCount c id a + 1 := by
    rw [effectiveCount, h1]; rfl
  have h2 := key (OnConnectionEstablished c id a).1 _ e1 (by omega)
  have e2 : effectiveCount (OnConnectionEstablished (OnConnectionEstablished c id a).1
      id a).1 id a = effectiveCount c id a + 1 + 1 := by
    rw [effectiveCount, h2]; rfl
  rw [e2, e1]
  omega

theorem established_twice_increases_witness :
    effectiveCount (MakeConnLimitInfo [⟨"svc", 2⟩] false) "svc" [10, 0, 0, 1] <
        effectiveCount
          (OnConnectionEstablished (MakeConnLimitInfo [⟨"svc", 2⟩] false) "svc"
            [10, 0, 0, 1]).1 "svc" [10, 0, 0, 1] ∧
      effectiveCount
          (OnConnectionEstablished (MakeConnLimitInfo [⟨"svc", 2⟩] false) "svc"
            [10, 0, 0, 1]).1 "svc" [10, 0, 0, 1] <
        effectiveCount
          (OnConnectionEstablished
            (OnConnectionEstablished (MakeConnLimitInfo [⟨"svc", 2⟩] false) "svc"
              [10, 0, 0, 1]).1 "svc" [10, 0, 0, 1]).1 "svc" [10, 0, 0, 1] :=
  established_twice_increases (MakeConnLimitInfo [⟨"svc", 2⟩] false) "svc" [10, 0, 0, 1]
    (by decide)

/-! ## Address equality is equality of canonical forms -/

theorem v4InV6Prefix_length : v4InV6Prefix.length = 12 := rfl

theorem IP.Equal_iff_canonical (a b : IP) :
    IP.Equal a b = true ↔ canonical a = canonical b := by
  unfold IP.Equal canonical
  by_cases hlen : a.length = b.length
  · rw [if_pos hlen]
    by_cases ha : a.length = 4
    · have hb : b.length = 4 := by omega
      simp [ha, hb]
    · have hb : ¬ b.length = 4 := by omega
      simp [ha, hb]
  · rw [if_neg hlen]
    by_cases h1 : a.length = 4 ∧ b.length = 16
    · rw [if_pos h1]
      have hb : ¬ b.length = 4 := by omega
      rw [if_pos h1.1, if_neg hb]
      simp only [Bool.and_eq_true, beq_iff_eq]
      constructor
      · rintro ⟨h2, h3⟩
        rw [← h2, h3, List.take_append_drop]
      · intro h
        subst h
        have hp := v4InV6Prefix_length
        constructor
        · rw [List.take_append_of_le_length (by omega), List.take_of_length_le (by omega)]
        · rw [List.drop_append_of_le_length (by omega), List.drop_of_length_le (by omega)]
          rfl
    · rw [if_neg h1]
      by_cases h2 : a.length = 16 ∧ b.length = 4
      · rw [if_pos h2]
        have ha : ¬ a.length = 4 := by omega
        rw [if_neg ha, if_pos h2.2]
        simp only [Bool.and_eq_true, beq_iff_eq]
        constructor
        · rintro ⟨h3, h4⟩
          rw [← h3, ← h4, List.take_append_drop]
        · intro h
          subst h
          have hp := v4InV6Prefix_length
          constructor
          · rw [List.take_append_of_le_length (by omega), List.take_of_length_le (by omega)]
          · rw [List.drop_append_of_le_length (by omega), List.drop_of_length_le (by omega)]
            rfl
      · rw [if_neg h2]
        simp only [Bool.false_eq_true, false_iff]
        intro h
        have hl := congrArg List.length h
        have hp := v4InV6Prefix_length
        by_cases ha : a.length = 4 <;> by_cases hb : b.length = 4 <;>
          simp only [ha, hb, if_true, if_false, List.length_append] at hl <;> omega

theorem IP.Equal_false_iff_canonical (a b : IP) :
    IP.Equal a b = false ↔ canonical a ≠ canonical b := by
  rw [Ne, ← IP.Equal_iff_canonical, Bool.not_eq_true]

theorem IP.Equal_symm (a b : IP) : IP.Equal a b = IP.Equal b a := by
  rw [Bool.eq_iff_iff, IP.Equal_iff_canonical, IP.Equal_iff_canonical]
  exact eq_comm

theorem IP.Equal_trans (a b x : IP) (h1 : IP.Equal a b = true) (h2 : IP.Equal b x = true) :
    IP.Equal a x = true := by
  rw [IP.Equal_iff_canonical] at *
  exact h1.trans h2

/-! ## Paired calls -/

theorem countFor_established_succ (c : connLimitMap) (id : String) (a : IP)
    (h : effectiveCount c id a + 1 < 2 ^ 32) :
    countFor (OnConnectionEstablished c id a).1 id a = some (effectiveCount c id a + 1) := by
  cases hs : countFor c id a with
  | none =>
    have : effectiveCount c id a = 0 := by rw [effectiveCount, hs]; rfl
    rw [this]
    exact (established_absent c id a hs).2
  | some m =>
    have hm : effectiveCount c id a = m := by rw [effectiveCount, hs]; rfl
    rw [hm] at h ⊢
    rw [(established_present c id a m hs).2, Nat.mod_eq_of_lt h]

theorem lost_present (c : connLimitMap) (id : String) (a : IP) (n : Nat)
    (h : countFor c id a = some n) (hn : n > 0) :
    ∃ c1, OnConnectionLost c id a = .ok c1 ∧ countFor c1 id a = some (n - 1) := by
  rcases OnConnectionLost_cases c id a with ⟨hl, -⟩ | ⟨l, hl, hf, -⟩ |
    ⟨l, i, hl, hf, h0, -⟩ | ⟨l, i, hl, hf, hpos, h1⟩
  · simp [countFor, counterFor, countersOf, hl] at h
  · rw [countFor_none_of_findIP c id a l hl hf] at h
    cases h
  · rw [(countFor_of_findIP (fun n => n) c id a l i hl hf).1, h0] at h
    injection h with h
    omega
  · have hc := countFor_of_findIP (fun n => n - 1) c id a l i hl hf
    rw [hc.1] at h
    injection h with h
    refine ⟨_, h1, ?_⟩
    rw [hc.2, h]

theorem run_append (c : connLimitMap) (xs ys : List Op) :
    run c (xs ++ ys) = (run c xs).bind (fun c1 => run c1 ys) := by
  induction xs generalizing c with
  | nil => rfl
  | cons op xs ih =>
    simp only [List.cons_append, run]
    cases step c op with
    | none => rfl
    | some c1 => exact ih c1

theorem run_replicate_established (n : Nat) (c : connLimitMap) (id : String) (a : IP)
    (h : effectiveCount c id a + n < 2 ^ 32) :
    ∃ c1, run c (List.replicate n (.established id a)) = some c1 ∧
      effectiveCount c1 id a = effectiveCount c id a + n ∧
      (0 < n → countFor c1 id a = some (effectiveCount c id a + n)) := by
  induction n generalizing c with
  | zero => exact ⟨c, rfl, rfl, fun h0 => absurd h0 (Nat.lt_irrefl 0)⟩
  | succ n ih =>
    have h1 := countFor_established_succ c id a (by omega)
    have e1 : effectiveCount (OnConnectionEstablished c id a).1 id a =
        effectiveCount c id a + 1 := by
      rw [effectiveCount, h1]; rfl
    obtain ⟨c2, hrun, heff, hcount⟩ :=
      ih (OnConnectionEstablished c id a).1 (by rw [e1]; omega)
    refine ⟨c2, ?_, ?_, fun _ => ?_⟩
    · rw [List.replicate_succ, run]
      exact hrun
    · rw [heff, e1]; omega
    · have hc2 : countFor c2 id a = some (effectiveCount c2 id a) := by
        by_cases hn : 0 < n
        · rw [hcount hn, heff]
        · have hn0 : n = 0 := by omega
          subst hn0
          simp only [List.replicate_zero, run, Option.some.injEq] at hrun
          subst hrun
          rw [h1, e1]
      rw [hc2, heff, e1]
      congr 1
      omega

theorem run_replicate_lost (n : Nat) (c : connLimitMap) (id : String) (a : IP) (m : Nat)
    (h : countFor c id a = some m) (hn : n ≤ m) :
    ∃ c1, run c (List.replicate n (.lost id a)) = some c1 ∧
      countFor c1 id a = some (m - n) := by
  induction n generalizing c m with
  | zero => exact ⟨c, rfl, h⟩
  | succ n ih =>
    obtain ⟨c1, hl, hc1⟩ := lost_present c id a m h (by omega)
    obtain ⟨c2, hrun, hc2⟩ := ih c1 (m - 1) hc1 (by omega)
    refine ⟨c2, ?_, ?_⟩
    · rw [List.replicate_succ, run]
      simp only [step, hl]
      exact hrun
    · rw [hc2]
      congr 1
      omega

/-- C11: when the count `n0` of `(id, a)` (0 if absent) satisfies `n0 + n < 2 ^ 32`, then
`n` calls of `OnConnectionEstablished(id, a)` followed by `n` calls of
`OnConnectionLost(id, a)` run without a panic and leave the count of `(id, a)` equal to
`n0`; for `n > 0` the pair then has a counter holding exactly `n0`, which is 0 for a pair
never seen before. -/
theorem established_then_lost_restores (n : Nat) (c : connLimitMap) (id : String) (a : IP)
    (h : effectiveCount c id a + n < 2 ^ 32) :
    ∃ c1, run c (List.replicate n (.established id a) ++ List.replicate n (.lost id a)) =
        some c1 ∧
      effectiveCount c1 id a = effectiveCount c id a ∧
      (0 < n → countFor c1 id a = some (effectiveCount c id a)) ∧
      (0 < n → countFor c id a = none → countFor c1 id a = some 0) := by
  obtain ⟨c1, hrun1, heff1, hcount1⟩ := run_replicate_established n c id a h
  by_cases hn : 0 < n
  · obtain ⟨c2, hrun2, hc2⟩ :=
      run_replicate_lost n c1 id a (effectiveCount c id a + n) (hcount1 hn) (by omega)
    have hfin : countFor c2 id a = some (effectiveCount c id a) := by
      rw [hc2]
      congr 1
      omega
    refine ⟨c2, ?_, ?_, fun _ => hfin, fun _ hnone => ?_⟩
    · rw [run_append, hrun1]
      exact hrun2
    · rw [effectiveCount, hfin]; rfl
    · rw [hfin, effectiveCount, hnone]; rfl
  · have hn0 : n = 0 := by omega
    subst hn0
    exact ⟨c, rfl, rfl, fun h0 => absurd h0 hn, fun h0 => absurd h0 hn⟩

theorem established_then_lost_restores_witness :
    ∃ c1, run (MakeConnLimitInfo [⟨"svc", 2⟩] false)
        (List.replicate 3 (.established "svc" [10, 0, 0, 1]) ++
          List.replicate 3 (.lost "svc" [10, 0, 0, 1])) = some c1 ∧
      effectiveCount c1 "svc" [10, 0, 0, 1] =
        effectiveCount (MakeConnLimitInfo [⟨"svc", 2⟩] false) "svc" [10, 0, 0, 1] ∧
      (0 < 3 → countFor c1 "svc" [10, 0, 0, 1] =
        some (effectiveCount (MakeConnLimitInfo [⟨"svc", 2⟩] false) "svc" [10, 0, 0, 1])) ∧
      (0 < 3 → countFor (MakeConnLimitInfo [⟨"svc", 2⟩] false) "svc" [10, 0, 0, 1] = none →
        countFor c1 "svc" [10, 0, 0, 1] = some 0) :=
  established_then_lost_restores 3 (MakeConnLimitInfo [⟨"svc", 2⟩] false) "svc"
    [10, 0, 0, 1] (by decide)

/-! ## What a mutating call touches -/

theorem map_ip_modifyCount (f : Nat → Nat) (l : List connectedIP) (i : Nat) :
    (modifyCount f l i).map (fun e => e.ip) = l.map (fun e => e.ip) := by
  induction l generalizing i with
  | nil => rfl
  | cons e rest ih =>
    cases i with
    | zero => rfl
    | succ i => simp [modifyCount, ih]

theorem getElem?_modifyCount_of_not_equal (f : Nat → Nat) (l : List connectedIP) (a : IP)
    (i j : Nat) (e : connectedIP) (hf : findIP l a = some i) (hj : l[j]? = some e)
    (he : e.ip.Equal a = false) : (modifyCount f l i)[j]? = some e := by
  induction l generalizing i j with
  | nil => simp [findIP] at hf
  | cons x rest ih =>
    by_cases hx : x.ip.Equal a = true
    · simp [findIP, hx] at hf
      subst hf
      cases j with
      | zero =>
        simp only [List.getElem?_cons_zero, Option.some.injEq] at hj
        subst hj
        rw [hx] at he
        cases he
      | succ j => simpa [modifyCount] using hj
    · cases hr : findIP rest a with
      | none => simp [findIP, hx, hr] at hf
      | some i1 =>
        simp [findIP, hx, hr] at hf
        subst hf
        cases j with
        | zero => simpa [modifyCount] using hj
        | succ j =>
          simp only [List.getElem?_cons_succ] at hj
          simpa [modifyCount] using ih i1 j hr hj

theorem find?_modifyCount_of_not_equal (f : Nat → Nat) (l : List connectedIP) (a b : IP)
    (i : Nat) (hf : findIP l a = some i) (hab : IP.Equal a b = false) :
    (modifyCount f l i).find? (fun e => e.ip.Equal b) = l.find? (fun e => e.ip.Equal b) := by
  induction l generalizing i with
  | nil => simp [findIP] at hf
  | cons x rest ih =>
    by_cases hx : x.ip.Equal a = true
    · simp [findIP, hx] at hf
      subst hf
      have hxb : x.ip.Equal b = false := by
        rw [← Bool.not_eq_true]
        intro hxb
        rw [IP.Equal_symm] at hx
        rw [IP.Equal_trans a x.ip b hx hxb] at hab
        cases hab
      simp [modifyCount, List.find?_cons, hxb]
    · cases hr : findIP rest a with
      | none => simp [findIP, hx, hr] at hf
      | some i1 =>
        simp [findIP, hx, hr] at hf
        subst hf
        by_cases hxb : x.ip.Equal b = true
        · simp [modifyCount, List.find?_cons, hxb]
        · simp [modifyCount, List.find?_cons, hxb, ih i1 hr]

/-- What `OnConnectionEstablished(id, a)` and a returning `OnConnectionLost(id, a)` do to
the registry: the policy and the lists of other identifiers are kept, and the list of
`id` either has one count rewritten at the position found for `a`, or gets a new counter
for `a` appended when none was found. -/
theorem touched_cases (c c1 : connLimitMap) (id : String) (a : IP)
    (h : c1 = (OnConnectionEstablished c id a).1 ∨ OnConnectionLost c id a = .ok c1) :
    c1.maxAllowedConnections = c.maxAllowedConnections ∧
    (∀ id1, id1 ≠ id → c1.connectedIPs id1 = c.connectedIPs id1) ∧
    c1.connectedIPs id ≠ none ∧
    ((∃ i f, findIP (countersOf c id) a = some i ∧
        countersOf c1 id = modifyCount f (countersOf c id) i) ∨
      (findIP (countersOf c id) a = none ∧
        countersOf c1 id = countersOf c id ++ [{ ip := a, count := 1 }])) := by
  rcases h with h | h
  · subst h
    refine ⟨rfl, fun id1 h1 => countersOf_established_ne c id id1 a h1, ?_, ?_⟩
    · simp [OnConnectionEstablished, incrementConnectionsCounter]
    · have hl := countersOf_established c id a
      cases hf : findIP (countersOf c id) a with
      | none =>
        rw [hf] at hl
        exact Or.inr ⟨rfl, hl⟩
      | some i =>
        rw [hf] at hl
        exact Or.inl ⟨i, _, rfl, hl⟩
  · rcases OnConnectionLost_cases c id a with ⟨_, h1⟩ | ⟨_, _, _, h1⟩ | ⟨_, _, _, _, _, h1⟩ |
      ⟨l, i, hl, hf, hpos, h1⟩
    · rw [h1] at h; cases h
    · rw [h1] at h; cases h
    · rw [h1] at h; cases h
    · rw [h1] at h
      injection h with h
      subst h
      refine ⟨rfl, fun id1 hne => by simp [Function.update_noteq hne], by simp, Or.inl ?_⟩
      refine ⟨i, fun n => n - 1, by simp [countersOf, hl, hf], by simp [countersOf, hl]⟩

theorem canEstablish_congr (w : IntSize) (c c1 : connLimitMap) (id : String) (b : IP)
    (hl : c1.connectedIPs id = c.connectedIPs id)
    (hp : c1.maxAllowedConnections = c.maxAllowedConnections) :
    CanEstablishNewConnection w c1 id b = CanEstablishNewConnection w c id b := by
  simp [CanEstablishNewConnection_def, connectedIPsForID_def, alreadyHasConnection_def,
    maxAllowedConnectionsAt, hl, hp]

/-- C12: `OnConnectionEstablished(id, a)` and a returning `OnConnectionLost(id, a)` leave
unchanged the policy, the counter list of every other identifier, and every counter
under `id` whose address is not equal to `a` (at its position, and as the counter looked
up for any address not equal to `a`); so `CanEstablishNewConnection(id1, b)` for
`id1 ≠ id` returns the same value before and after. -/
theorem mutation_frame (w : IntSize) (c c1 : connLimitMap) (id : String) (a : IP)
    (h : c1 = (OnConnectionEstablished c id a).1 ∨ OnConnectionLost c id a = .ok c1) :
    c1.maxAllowedConnections = c.maxAllowedConnections ∧
    (∀ id1, maxAllowed c1 id1 = maxAllowed c id1) ∧
    (∀ id1, id1 ≠ id → c1.connectedIPs id1 = c.connectedIPs id1) ∧
    (∀ (j : Nat) (e : connectedIP), (countersOf c id)[j]? = some e →
      e.ip.Equal a = false → (countersOf c1 id)[j]? = some e) ∧
    (∀ b, IP.Equal a b = false → countFor c1 id b = countFor c id b) ∧
    (∀ id1 b, id1 ≠ id →
      CanEstablishNewConnection w c1 id1 b = CanEstablishNewConnection w c id1 b) := by
  obtain ⟨hp, hother, -, hcase⟩ := touched_cases c c1 id a h
  refine ⟨hp, fun id1 => by simp [maxAllowed, hp], hother, ?_, ?_, ?_⟩
  · intro j e hj he
    rcases hcase with ⟨i, f, hf, hl⟩ | ⟨hf, hl⟩
    · rw [hl]
      exact getElem?_modifyCount_of_not_equal f _ a i j e hf hj he
    · rw [hl, List.getElem?_append_left (List.getElem?_eq_some_iff.mp hj).1]
      exact hj
  · intro b hab
    rcases hcase with ⟨i, f, hf, hl⟩ | ⟨hf, hl⟩
    · rw [countFor, counterFor, hl, find?_modifyCount_of_not_equal f _ a b i hf hab]
      rfl
    · rw [countFor, counterFor, hl, List.find?_append]
      cases hx : (countersOf c id).find? (fun e => e.ip.Equal b) with
      | some e => simp [countFor, counterFor, hx]
      | none => simp [countFor, counterFor, hx, List.find?_cons, hab]
  · intro id1 b hne
    exact canEstablish_congr w c c1 id1 b (hother id1 hne) hp

theorem mutation_frame_witness :
    CanEstablishNewConnection .bits64
        (OnConnectionEstablished (MakeConnLimitInfo [⟨"svc", 1⟩, ⟨"web", 1⟩] false) "svc"
          [10, 0, 0, 1]).1 "web" [10, 0, 0, 2] =
      CanEstablishNewConnection .bits64 (MakeConnLimitInfo [⟨"svc", 1⟩, ⟨"web", 1⟩] false)
        "web" [10, 0, 0, 2] :=
  (mutation_frame .bits64 (MakeConnLimitInfo [⟨"svc", 1⟩, ⟨"web", 1⟩] false) _ "svc" [10, 0, 0, 1]
    (Or.inl rfl)).2.2.2.2.2 "web" [10, 0, 0, 2] (by decide)

theorem canEstablishRepeated_eq (w : IntSize) (id : String) (a : IP) (n : Nat)
    (c : connLimitMap) :
    canEstablishRepeated w id a n c =
      (c, List.replicate n (CanEstablishNewConnectionCall w c id a).2) := by
  induction n generalizing c with
  | zero => rfl
  | succ n ih =>
    simp only [canEstablishRepeated, CanEstablishNewConnectionCall_state, ih,
      List.replicate_succ]

/-- C13: `CanEstablishNewConnection(id, a)` leaves the registry as it was: the registry
returned by the call, and by each of its two helper calls, is the registry it was given
(same counter lists, counts and policy, no list or counter created for `id`); its result
is the one computed from that registry; and `n` calls in a row, each on the registry left
by the one before, leave the registry unchanged and return `n` times the same result. -/
theorem canEstablish_no_side_effect (w : IntSize) (c : connLimitMap) (id : String)
    (a : IP) (n : Nat) :
    (CanEstablishNewConnectionCall w c id a).1 = c ∧
    (connectedIPsForIDCall c id).1 = c ∧
    (alreadyHasConnectionCall c id a).1 = c ∧
    (∀ id1, (CanEstablishNewConnectionCall w c id a).1.connectedIPs id1 =
      c.connectedIPs id1) ∧
    (∀ id1 b, countFor (CanEstablishNewConnectionCall w c id a).1 id1 b = countFor c id1 b) ∧
    (CanEstablishNewConnectionCall w c id a).1.maxAllowedConnections =
      c.maxAllowedConnections ∧
    (CanEstablishNewConnectionCall w c id a).2 =
      (alreadyHasConnection c id a ||
        decide ((connectedIPsForID c id : Int) <
          intOfUint32 w (maxAllowedConnectionsAt c id))) ∧
    canEstablishRepeated w id a n c =
      (c, List.replicate n (CanEstablishNewConnection w c id a)) ∧
    step c (.canEstablish id a) = some (CanEstablishNewConnectionCall w c id a).1 ∧
    observe w c (List.replicate n (.canEstablish id a)) =
      List.replicate n (.can (CanEstablishNewConnection w c id a)) := by
  have hstate := CanEstablishNewConnectionCall_state w c id a
  refine ⟨hstate, connectedIPsForIDCall_state c id, alreadyHasConnectionCall_state c id a,
    fun id1 => by rw [hstate], fun id1 b => by rw [hstate], by rw [hstate],
    CanEstablishNewConnection_def w c id a, canEstablishRepeated_eq w id a n c,
    by rw [hstate]; rfl, ?_⟩
  induction n with
  | zero => rfl
  | succ n ih => simp only [List.replicate_succ, observe, ih]

theorem canEstablish_no_side_effect_witness :
    canEstablishRepeated .bits32 "svc" [10, 0, 0, 1] 3
        (OnConnectionEstablished (MakeConnLimitInfo [⟨"svc", 1⟩] false) "svc"
          [10, 0, 0, 2]).1 =
      ((OnConnectionEstablished (MakeConnLimitInfo [⟨"svc", 1⟩] false) "svc"
          [10, 0, 0, 2]).1,
        List.replicate 3
          (CanEstablishNewConnection .bits32
            (OnConnectionEstablished (MakeConnLimitInfo [⟨"svc", 1⟩] false) "svc"
              [10, 0, 0, 2]).1 "svc" [10, 0, 0, 1])) :=
  (canEstablish_no_side_effect .bits32
    (OnConnectionEstablished (MakeConnLimitInfo [⟨"svc", 1⟩] false) "svc" [10, 0, 0, 2]).1
    "svc" [10, 0, 0, 1] 3).2.2.2.2.2.2.2.1

/-- C15: there is no atomic check-and-increment, so the cap can be exceeded: with limit 1
for `id` and two addresses `A`, `B` that are not equal, both admission checks succeed on
the fresh registry, both `OnConnectionEstablished` calls return true, and afterwards 2
addresses are active under `id`, more than the limit (a check made between the two calls
would have refused `B`). -/
theorem cap_exceeded_without_recheck (w : IntSize) (id : String) (A B : IP) (dbg : Bool)
    (hAB : A.Equal B = false) :
    maxAllowed (MakeConnLimitInfo [⟨id, 1⟩] dbg) id = 1 ∧
    CanEstablishNewConnection w (MakeConnLimitInfo [⟨id, 1⟩] dbg) id A = true ∧
    CanEstablishNewConnection w (MakeConnLimitInfo [⟨id, 1⟩] dbg) id B = true ∧
    (OnConnectionEstablished (MakeConnLimitInfo [⟨id, 1⟩] dbg) id A).2 = true ∧
    (OnConnectionEstablished
      (OnConnectionEstablished (MakeConnLimitInfo [⟨id, 1⟩] dbg) id A).1 id B).2 = true ∧
    activeAddresses
      (OnConnectionEstablished
        (OnConnectionEstablished (MakeConnLimitInfo [⟨id, 1⟩] dbg) id A).1 id B).1 id = 2 ∧
    maxAllowed
        (OnConnectionEstablished
          (OnConnectionEstablished (MakeConnLimitInfo [⟨id, 1⟩] dbg) id A).1 id B).1 id <
      activeAddresses
        (OnConnectionEstablished
          (OnConnectionEstablished (MakeConnLimitInfo [⟨id, 1⟩] dbg) id A).1 id B).1 id ∧
    CanEstablishNewConnection w
      (OnConnectionEstablished (MakeConnLimitInfo [⟨id, 1⟩] dbg) id A).1 id B = false := by
  have p0 : (MakeConnLimitInfo [⟨id, 1⟩] dbg).maxAllowedConnections id = some 1 := by
    simp [MakeConnLimitInfo]
  have e0 : (MakeConnLimitInfo [⟨id, 1⟩] dbg).connectedIPs id = none := rfl
  have hlim : intOfUint32 w 1 = 1 := by cases w <;> rfl
  have e1 : (OnConnectionEstablished (MakeConnLimitInfo [⟨id, 1⟩] dbg) id A).1.connectedIPs id =
      some [⟨A, 1⟩] := by
    simp [OnConnectionEstablished, incrementConnectionsCounter, MakeConnLimitInfo,
      findIP, modifyCount, uint32Size]
  have p1 : (OnConnectionEstablished (MakeConnLimitInfo [⟨id, 1⟩] dbg) id
      A).1.maxAllowedConnections id = some 1 := p0
  have e2 : (OnConnectionEstablished
      (OnConnectionEstablished (MakeConnLimitInfo [⟨id, 1⟩] dbg) id A).1 id B).1.connectedIPs id =
      some [⟨A, 1⟩, ⟨B, 1⟩] := by
    simp [OnConnectionEstablished, incrementConnectionsCounter, MakeConnLimitInfo,
      findIP, modifyCount, uint32Size, hAB]
  have hact : activeAddresses
      (OnConnectionEstablished
        (OnConnectionEstablished (MakeConnLimitInfo [⟨id, 1⟩] dbg) id A).1 id B).1 id = 2 := by
    simp [activeAddresses, countersOf, e2]
  have hmax : maxAllowed
      (OnConnectionEstablished
        (OnConnectionEstablished (MakeConnLimitInfo [⟨id, 1⟩] dbg) id A).1 id B).1 id = 1 := by
    simp [maxAllowed, OnConnectionEstablished, incrementConnectionsCounter, p0]
  refine ⟨by simp [maxAllowed, p0], ?_, ?_, rfl, rfl, hact, by rw [hmax, hact]; decide, ?_⟩
  · simp [CanEstablishNewConnection_def, connectedIPsForID_def, alreadyHasConnection_def, hlim,
      maxAllowedConnectionsAt, e0, p0]
  · simp [CanEstablishNewConnection_def, connectedIPsForID_def, alreadyHasConnection_def, hlim,
      maxAllowedConnectionsAt, e0, p0]
  · simp [CanEstablishNewConnection_def, connectedIPsForID_def, alreadyHasConnection_def, hlim,
      maxAllowedConnectionsAt, e1, p1, connectedIPsForIDLoop, alreadyHasConnectionLoop, hAB]

theorem cap_exceeded_without_recheck_witness :
    activeAddresses
      (OnConnectionEstablished
        (OnConnectionEstablished (MakeConnLimitInfo [⟨"svc", 1⟩] false) "svc"
          [10, 0, 0, 1]).1 "svc" [10, 0, 0, 2]).1 "svc" = 2 :=
  (cap_exceeded_without_recheck .bits64 "svc" [10, 0, 0, 1] [10, 0, 0, 2] false
    (by decide)).2.2.2.2.2.1

/-- C19: `OnConnectionLost` is atomic on failure: whenever it panics, the registry state
at the panic is the state before the call, so no counter or list has been created,
changed or removed. -/
theorem onConnectionLost_failure_atomic (c : connLimitMap) (id : String) (a : IP)
    (p : PanicReason × connLimitMap) (h : OnConnectionLost c id a = .error p) :
    p.2 = c ∧ p.2.connectedIPs = c.connectedIPs ∧
      p.2.maxAllowedConnections = c.maxAllowedConnections := by
  have hp : p.2 = c := by
    rcases OnConnectionLost_cases c id a with ⟨_, h1⟩ | ⟨_, _, _, h1⟩ | ⟨_, _, _, _, _, h1⟩ |
      ⟨_, _, _, _, _, h1⟩
    all_goals
      rw [h1] at h
      first
        | (injection h with h; rw [← h])
        | cases h
  exact ⟨hp, by rw [hp], by rw [hp]⟩

theorem onConnectionLost_failure_atomic_witness :
    ∃ p, OnConnectionLost (MakeConnLimitInfo [⟨"svc", 2⟩] false) "svc" [10, 0, 0, 1] =
        .error p ∧ p.2 = MakeConnLimitInfo [⟨"svc", 2⟩] false :=
  ⟨(PanicReason.unexistingId, MakeConnLimitInfo [⟨"svc", 2⟩] false), rfl,
    (onConnectionLost_failure_atomic (MakeConnLimitInfo [⟨"svc", 2⟩] false) "svc"
      [10, 0, 0, 1] (PanicReason.unexistingId, MakeConnLimitInfo [⟨"svc", 2⟩] false) rfl).1⟩

/-! ## Counters persist and stay unique -/

theorem touched_addresses (c c1 : connLimitMap) (id : String) (a : IP)
    (h : c1 = (OnConnectionEstablished c id a).1 ∨ OnConnectionLost c id a = .ok c1)
    (id1 : String) :
    (c.connectedIPs id1 ≠ none → c1.connectedIPs id1 ≠ none) ∧
    ((countersOf c1 id1).map (fun e => e.ip) = (countersOf c id1).map (fun e => e.ip) ∨
      (id1 = id ∧ findIP (countersOf c id) a = none ∧
        (countersOf c1 id1).map (fun e => e.ip) =
          (countersOf c id1).map (fun e => e.ip) ++ [a])) := by
  obtain ⟨-, hother, hsome, hcase⟩ := touched_cases c c1 id a h
  by_cases hid : id1 = id
  · subst hid
    refine ⟨fun _ => hsome, ?_⟩
    rcases hcase with ⟨i, f, -, hl⟩ | ⟨hf, hl⟩
    · exact Or.inl (by rw [hl, map_ip_modifyCount])
    · exact Or.inr ⟨rfl, hf, by rw [hl, List.map_append]; rfl⟩
  · have := hother id1 hid
    exact ⟨fun hn => by rwa [this], Or.inl (by simp [countersOf, this])⟩

theorem step_addresses (c c1 : connLimitMap) (op : Op) (h : step c op = some c1)
    (id1 : String) :
    (c.connectedIPs id1 ≠ none → c1.connectedIPs id1 ≠ none) ∧
    ((countersOf c1 id1).map (fun e => e.ip) = (countersOf c id1).map (fun e => e.ip) ∨
      ∃ a, findIP (countersOf c id1) a = none ∧
        (countersOf c1 id1).map (fun e => e.ip) =
          (countersOf c id1).map (fun e => e.ip) ++ [a]) := by
  cases op with
  | canEstablish i a =>
    simp only [step, Option.some.injEq] at h
    subst h
    exact ⟨fun hn => hn, Or.inl rfl⟩
  | established i a =>
    simp only [step, Option.some.injEq] at h
    obtain ⟨h1, h2⟩ := touched_addresses c c1 i a (Or.inl h.symm) id1
    refine ⟨h1, ?_⟩
    rcases h2 with h2 | ⟨rfl, hf, h2⟩
    · exact Or.inl h2
    · exact Or.inr ⟨a, hf, h2⟩
  | lost i a =>
    simp only [step] at h
    cases hr : OnConnectionLost c i a with
    | error p => simp [hr] at h
    | ok c2 =>
      simp only [hr, Option.some.injEq] at h
      subst h
      obtain ⟨h1, h2⟩ := touched_addresses c c2 i a (Or.inr hr) id1
      refine ⟨h1, ?_⟩
      rcases h2 with h2 | ⟨rfl, hf, h2⟩
      · exact Or.inl h2
      · exact Or.inr ⟨a, hf, h2⟩

theorem countFor_isSome_iff (c : connLimitMap) (id : String) (a : IP) :
    (countFor c id a).isSome = true ↔
      ∃ x ∈ (countersOf c id).map (fun e => e.ip), IP.Equal x a = true := by
  simp [countFor, counterFor, List.find?_isSome]

/-- C16: counters are never removed: after any call that returns, every identifier that
had a counter list still has one, the addresses of its counters are still there in the
same order (new ones only at the end), so the number of counters does not decrease and
every pair that had a counter still has one; and when `OnConnectionLost(id, a)` takes a
count from 1 to 0 the counter stays in the list with count 0, the list keeps its length,
and the address is no longer counted by `connectedIPsForID` nor seen by
`alreadyHasConnection`. -/
theorem counters_never_removed (c c1 : connLimitMap) (op : Op) (h : step c op = some c1)
    (id1 : String) :
    (c.connectedIPs id1 ≠ none → c1.connectedIPs id1 ≠ none) ∧
    (countersOf c id1).map (fun e => e.ip) <+: (countersOf c1 id1).map (fun e => e.ip) ∧
    (countersOf c id1).length ≤ (countersOf c1 id1).length ∧
    (∀ a, (countFor c id1 a).isSome = true → (countFor c1 id1 a).isSome = true) ∧
    (∀ a, op = .lost id1 a → countFor c id1 a = some 1 →
      countFor c1 id1 a = some 0 ∧
        (countersOf c1 id1).length = (countersOf c id1).length ∧
        connectedIPsForID c1 id1 + 1 = connectedIPsForID c id1 ∧
        alreadyHasConnection c1 id1 a = false) := by
  obtain ⟨hlist, haddr⟩ := step_addresses c c1 op h id1
  have hpre : (countersOf c id1).map (fun e => e.ip) <+:
      (countersOf c1 id1).map (fun e => e.ip) := by
    rcases haddr with h1 | ⟨a, -, h1⟩
    · rw [h1]
    · rw [h1]
      exact List.prefix_append _ _
  refine ⟨hlist, hpre, ?_, ?_, ?_⟩
  · simpa using hpre.length_le
  · intro a
    rw [countFor_isSome_iff, countFor_isSome_iff]
    rintro ⟨x, hx, hxa⟩
    exact ⟨x, hpre.subset hx, hxa⟩
  · rintro a rfl hone
    simp only [step] at h
    rcases OnConnectionLost_cases c id1 a with ⟨_, h1⟩ | ⟨_, _, _, h1⟩ |
      ⟨_, _, _, _, _, h1⟩ | ⟨l, i, hl, hf, hpos, h1⟩
    · simp [h1] at h
    · simp [h1] at h
    · simp [h1] at h
    · simp only [h1, Option.some.injEq] at h
      subst h
      have hc := countFor_of_findIP (fun n => n - 1) c id1 a l i hl hf
      rw [hc.1] at hone
      injection hone with hone
      obtain ⟨e, he1, he2, he3, he4, he5⟩ := findIP_some (fun n => n - 1) l a i hf
      have hcp := countP_modifyCount (fun n => n - 1) l a i hf
      rw [hone] at hcp
      simp only [Nat.sub_self, Nat.lt_irrefl, if_false, Nat.add_zero, gt_iff_lt,
        Nat.lt_one_iff, Nat.zero_lt_one, if_true] at hcp
      have hzero : countFor
          { c with
            connectedIPs := Function.update c.connectedIPs id1
              (some (modifyCount (fun n => n - 1) l i)) } id1 a = some 0 := by
        rw [hc.2, hone]
      refine ⟨hzero, ?_, ?_, ?_⟩
      · simp [countersOf, hl, he5]
      · rw [connectedIPsForID_eq, connectedIPsForID_eq]
        simpa [activeAddresses, countersOf, hl] using hcp
      · rw [Bool.eq_false_iff, Ne, alreadyHasConnection_iff, ← countFor_pos_iff]
        rintro ⟨n, hn, hpos1⟩
        rw [hzero] at hn
        injection hn with hn
        omega

theorem counters_never_removed_witness :
    ∃ c1, step (OnConnectionEstablished (MakeConnLimitInfo [⟨"svc", 2⟩] false) "svc"
        [10, 0, 0, 1]).1 (.lost "svc" [10, 0, 0, 1]) = some c1 ∧
      countFor c1 "svc" [10, 0, 0, 1] = some 0 ∧
      (countersOf c1 "svc").length = 1 ∧
      connectedIPsForID c1 "svc" = 0 :=
  ⟨_, rfl,
    ((counters_never_removed
      (OnConnectionEstablished (MakeConnLimitInfo [⟨"svc", 2⟩] false) "svc" [10, 0, 0, 1]).1
      _ (.lost "svc" [10, 0, 0, 1]) rfl "svc").2.2.2.2 [10, 0, 0, 1] rfl (by decide)).1,
    by decide, by decide⟩

theorem distinctAddresses_iff_map (l : List connectedIP) :
    distinctAddresses l ↔
      (l.map (fun e => e.ip)).Pairwise (fun x y => IP.Equal x y = false) := by
  rw [distinctAddresses, List.pairwise_map]

theorem findIP_none_forall (l : List connectedIP) (a : IP) (h : findIP l a = none) :
    ∀ x ∈ l.map (fun e => e.ip), IP.Equal x a = false := by
  have := (findIP_none_iff l a).mp h
  rw [List.find?_eq_none] at this
  intro x hx
  obtain ⟨e, he, rfl⟩ := List.mem_map.mp hx
  simpa using this e he

theorem step_distinct (c c1 : connLimitMap) (op : Op) (h : step c op = some c1)
    (hd : ∀ id, distinctAddresses (countersOf c id)) (id : String) :
    distinctAddresses (countersOf c1 id) := by
  have hd0 := (distinctAddresses_iff_map _).mp (hd id)
  rw [distinctAddresses_iff_map]
  rcases (step_addresses c c1 op h id).2 with h1 | ⟨a, hf, h1⟩
  · rw [h1]
    exact hd0
  · rw [h1, List.pairwise_append]
    refine ⟨hd0, List.pairwise_singleton _ _, ?_⟩
    intro x hx y hy
    rw [List.mem_singleton] at hy
    subst hy
    exact findIP_none_forall _ _ hf x hx

theorem run_distinct (ops : List Op) (c0 c : connLimitMap)
    (h0 : ∀ id, distinctAddresses (countersOf c0 id)) (h : run c0 ops = some c)
    (id : String) : distinctAddresses (countersOf c id) := by
  induction ops generalizing c0 with
  | nil =>
    simp only [run, Option.some.injEq] at h
    subst h
    exact h0 id
  | cons op ops ih =>
    simp only [run] at h
    cases hs : step c0 op with
    | none => simp [hs] at h
    | some c1 =>
      simp only [hs] at h
      exact ih c1 (fun j => step_distinct c0 c1 op hs h0 j) h

theorem fresh_distinct (allowed : List AllowedConnections) (dbg : Bool) (id : String) :
    distinctAddresses (countersOf (MakeConnLimitInfo allowed dbg) id) :=
  List.Pairwise.nil

/-- In a list without equal addresses every counter whose address equals `a` is the one
found by the first-match search. -/
theorem find?_of_distinct (l : List connectedIP) (a : IP) (e : connectedIP)
    (hd : distinctAddresses l) (he : e ∈ l) (hea : e.ip.Equal a = true) :
    l.find? (fun x => x.ip.Equal a) = some e := by
  induction l with
  | nil => cases he
  | cons x rest ih =>
    rw [distinctAddresses, List.pairwise_cons] at hd
    rcases List.mem_cons.mp he with rfl | hmem
    · simp [List.find?_cons, hea]
    · have hxa : x.ip.Equal a = false := by
        rw [← Bool.not_eq_true]
        intro hxa
        have hae : IP.Equal a e.ip = true := by rw [IP.Equal_symm]; exact hea
        have := IP.Equal_trans x.ip a e.ip hxa hae
        rw [hd.1 e hmem] at this
        cases this
      simp only [List.find?_cons, hxa]
      exact ih hd.2 hmem

theorem countP_equal_le_one (l : List connectedIP) (a : IP) (hd : distinctAddresses l) :
    l.countP (fun e => e.ip.Equal a) ≤ 1 := by
  induction l with
  | nil => simp
  | cons x rest ih =>
    have hd1 := hd
    rw [distinctAddresses, List.pairwise_cons] at hd1
    by_cases hxa : x.ip.Equal a = true
    · have hzero : rest.countP (fun e => e.ip.Equal a) = 0 := by
        rw [List.countP_eq_zero]
        intro e he hea
        have hae : IP.Equal a e.ip = true := by rw [IP.Equal_symm]; exact hea
        have := IP.Equal_trans x.ip a e.ip hxa hae
        rw [hd1.1 e he] at this
        cases this
      simp [List.countP_cons, hxa, hzero]
    · have := ih hd1.2
      simpa [List.countP_cons, hxa] using this

/-- The position returned by the search loop holds the first counter whose address
equals `a`. -/
theorem findIP_getElem? (l : List connectedIP) (a : IP) (i : Nat) (e : connectedIP)
    (hf : findIP l a = some i) (he : l.find? (fun x => x.ip.Equal a) = some e) :
    l[i]? = some e := by
  induction l generalizing i with
  | nil => simp [findIP] at hf
  | cons x rest ih =>
    by_cases hx : x.ip.Equal a = true
    · simp [findIP, hx] at hf
      subst hf
      simpa [List.find?_cons, hx] using he
    · cases hr : findIP rest a with
      | none => simp [findIP, hx, hr] at hf
      | some i1 =>
        simp [findIP, hx, hr] at hf
        subst hf
        simp only [List.find?_cons, hx] at he
        simpa using ih i1 hr he

/-- C18: in every state reached from a fresh registry by any sequence of calls, no list
holds two counters with equal addresses; hence at most one counter of a list has an
address equal to a given `a`, and any counter with such an address is the one that the
first-match search of `alreadyHasConnection`, `incrementConnectionsCounter` and
`decrementConnectionsCounter` finds. -/
theorem reachable_addresses_unique (allowed : List AllowedConnections) (dbg : Bool)
    (ops : List Op) (c : connLimitMap)
    (h : run (MakeConnLimitInfo allowed dbg) ops = some c) (id : String) :
    distinctAddresses (countersOf c id) ∧
    (∀ a, (countersOf c id).countP (fun e => e.ip.Equal a) ≤ 1) ∧
    (∀ a e, e ∈ countersOf c id → e.ip.Equal a = true →
      counterFor c id a = some e ∧
        ∃ i, findIP (countersOf c id) a = some i ∧ (countersOf c id)[i]? = some e) ∧
    (∀ a, alreadyHasConnection c id a = true ↔
      ∃ e ∈ countersOf c id, e.ip.Equal a = true ∧ e.count > 0) := by
  have hd := run_distinct ops _ c (fresh_distinct allowed dbg) h id
  have hfirst : ∀ a e, e ∈ countersOf c id → e.ip.Equal a = true →
      counterFor c id a = some e := fun a e he hea => find?_of_distinct _ a e hd he hea
  refine ⟨hd, fun a => countP_equal_le_one _ a hd, ?_, ?_⟩
  · intro a e he hea
    refine ⟨hfirst a e he hea, ?_⟩
    cases hf : findIP (countersOf c id) a with
    | none =>
      have := findIP_none_forall _ _ hf e.ip (List.mem_map_of_mem _ he)
      rw [hea] at this
      cases this
    | some i =>
      exact ⟨i, rfl, findIP_getElem? _ a i e hf (hfirst a e he hea)⟩
  · intro a
    rw [alreadyHasConnection_iff]
    constructor
    · rintro ⟨e, he, hpos⟩
      exact ⟨e, List.mem_of_find?_eq_some he,
        by simpa using List.find?_some he, hpos⟩
    · rintro ⟨e, he, hea, hpos⟩
      exact ⟨e, hfirst a e he hea, hpos⟩

theorem reachable_addresses_unique_witness :
    ∃ c, run (MakeConnLimitInfo [⟨"svc", 2⟩] false)
        [.established "svc" [10, 0, 0, 1],
          .established "svc" [0, 0, 0, 0, 0, 0, 0, 0, 0, 0, 255, 255, 10, 0, 0, 1],
          .established "svc" [10, 0, 0, 2]] = some c ∧
      distinctAddresses (countersOf c "svc") ∧ (countersOf c "svc").length = 2 :=
  ⟨_, rfl,
    (reachable_addresses_unique [⟨"svc", 2⟩] false
      [.established "svc" [10, 0, 0, 1],
        .established "svc" [0, 0, 0, 0, 0, 0, 0, 0, 0, 0, 255, 255, 10, 0, 0, 1],
        .established "svc" [10, 0, 0, 2]] _ rfl "svc").1, by decide⟩

/-! ## The list registry and the keyed model -/

theorem alreadyHasConnection_eq (c : connLimitMap) (id : String) (a : IP) :
    alreadyHasConnection c id a =
      match countFor c id a with
      | some n => decide (n > 0)
      | none => false := by
  rw [alreadyHasConnection_def]
  unfold countFor counterFor countersOf
  cases c.connectedIPs id with
  | none => rfl
  | some l =>
    simp only [Option.getD_some]
    induction l with
    | nil => rfl
    | cons e rest ih =>
      by_cases h : e.ip.Equal a = true
      · simp [alreadyHasConnectionLoop, List.find?_cons, h]
      · simp [alreadyHasConnectionLoop, List.find?_cons, h, ih]

theorem representsList_lookup (l : List connectedIP) (keys : Finset IP) (f : IP → Nat)
    (a : IP) (h : representsList l keys f) :
    (if canonical a ∈ keys then some (f (canonical a)) else none) =
      (l.find? (fun e => e.ip.Equal a)).map (fun e => e.count) := by
  obtain ⟨-, hK, hf⟩ := h
  subst hK
  cases hfind : l.find? (fun e => e.ip.Equal a) with
  | none =>
    rw [List.find?_eq_none] at hfind
    have hnot : canonical a ∉ (l.map (fun e => canonical e.ip)).toFinset := by
      rw [List.mem_toFinset, List.mem_map]
      rintro ⟨e, he, hce⟩
      exact hfind e he ((IP.Equal_iff_canonical _ _).mpr hce)
    simp [hnot]
  | some e =>
    have hmem := List.mem_of_find?_eq_some hfind
    have hea : e.ip.Equal a = true := by simpa using List.find?_some hfind
    have hc : canonical e.ip = canonical a := (IP.Equal_iff_canonical _ _).mp hea
    have hin : canonical a ∈ (l.map (fun e => canonical e.ip)).toFinset := by
      rw [List.mem_toFinset, ← hc]
      exact List.mem_map_of_mem _ hmem
    rw [if_pos hin, ← hc, hf e hmem]
    rfl

theorem representsList_active (l : List connectedIP) (keys : Finset IP) (f : IP → Nat)
    (h : representsList l keys f) :
    (keys.filter (fun x => 0 < f x)).card = l.countP (fun e => decide (e.count > 0)) := by
  obtain ⟨hnd, hK, hf⟩ := h
  subst hK
  induction l with
  | nil => simp
  | cons e rest ih =>
    rw [List.map_cons, List.nodup_cons] at hnd
    have hrest := ih hnd.2 (fun x hx => hf x (List.mem_cons_of_mem _ hx))
    have he := hf e (List.mem_cons_self _ _)
    have hnot : canonical e.ip ∉
        (rest.map (fun e => canonical e.ip)).toFinset.filter (fun x => 0 < f x) := by
      rw [Finset.mem_filter, List.mem_toFinset]
      exact fun hx => hnd.1 hx.1
    rw [List.map_cons, List.toFinset_cons, Finset.filter_insert, List.countP_cons]
    by_cases hpos : 0 < e.count
    · rw [if_pos (by rw [he]; exact hpos), Finset.card_insert_of_not_mem hnot, hrest]
      simp [hpos]
    · rw [if_neg (by rw [he]; exact hpos), hrest]
      simp [hpos]

theorem representsList_modify (g : Nat → Nat) (l : List connectedIP) (keys : Finset IP)
    (f : IP → Nat) (a : IP) (i : Nat) (h : representsList l keys f)
    (hfind : findIP l a = some i) :
    canonical a ∈ keys ∧
      representsList (modifyCount g l i) keys
        (Function.update f (canonical a) (g (f (canonical a)))) := by
  obtain ⟨hnd, hK, hf⟩ := h
  have hmap : (modifyCount g l i).map (fun e => canonical e.ip) =
      l.map (fun e => canonical e.ip) := by
    have := congrArg (List.map canonical) (map_ip_modifyCount g l i)
    simpa [List.map_map] using this
  have hin : canonical a ∈ keys := by
    obtain ⟨e, he, -⟩ := findIP_some g l a i hfind
    have hmem := List.mem_of_find?_eq_some he
    have hea : e.ip.Equal a = true := by simpa using List.find?_some he
    rw [hK, List.mem_toFinset, ← (IP.Equal_iff_canonical _ _).mp hea]
    exact List.mem_map_of_mem _ hmem
  refine ⟨hin, by rw [hmap]; exact hnd, by rw [hmap]; exact hK, ?_⟩
  clear hK hin hmap
  induction l generalizing i with
  | nil => simp [findIP] at hfind
  | cons x rest ih =>
    rw [List.map_cons, List.nodup_cons] at hnd
    have hx := hf x (List.mem_cons_self _ _)
    have hrest : ∀ e ∈ rest, f (canonical e.ip) = e.count :=
      fun e he => hf e (List.mem_cons_of_mem _ he)
    by_cases hxa : x.ip.Equal a = true
    · simp [findIP, hxa] at hfind
      subst hfind
      have hc : canonical x.ip = canonical a := (IP.Equal_iff_canonical _ _).mp hxa
      intro e he
      simp only [modifyCount, List.mem_cons] at he
      rcases he with rfl | he
      · show Function.update f (canonical a) (g (f (canonical a))) (canonical x.ip) =
          g x.count
        rw [hc, Function.update_same, ← hc, hx]
      · have hne : canonical e.ip ≠ canonical a := by
          rw [← hc]
          intro heq
          exact hnd.1 (by rw [← heq]; exact List.mem_map_of_mem _ he)
        rw [Function.update_noteq hne]
        exact hrest e he
    · cases hr : findIP rest a with
      | none => simp [findIP, hxa, hr] at hfind
      | some i1 =>
        simp [findIP, hxa, hr] at hfind
        subst hfind
        have hne : canonical x.ip ≠ canonical a := by
          rw [← IP.Equal_false_iff_canonical]
          simpa using hxa
        intro e he
        simp only [modifyCount, List.mem_cons] at he
        rcases he with rfl | he
        · rw [Function.update_noteq hne]
          exact hx
        · exact ih i1 hr hnd.2 hrest e he

theorem representsList_append (v : Nat) (l : List connectedIP) (keys : Finset IP)
    (f : IP → Nat) (a : IP) (h : representsList l keys f) (hfind : findIP l a = none) :
    canonical a ∉ keys ∧
      representsList (l ++ [{ ip := a, count := v }]) (insert (canonical a) keys)
        (Function.update f (canonical a) v) := by
  obtain ⟨hnd, hK, hf⟩ := h
  have hnone := findIP_none_forall l a hfind
  have hnot : canonical a ∉ l.map (fun e => canonical e.ip) := by
    rw [List.mem_map]
    rintro ⟨e, he, hce⟩
    have := hnone e.ip (List.mem_map_of_mem _ he)
    rw [(IP.Equal_iff_canonical _ _).mpr hce] at this
    cases this
  refine ⟨by rw [hK, List.mem_toFinset]; exact hnot, ?_, ?_, ?_⟩
  · rw [List.map_append, List.nodup_append]
    refine ⟨hnd, List.nodup_singleton _, ?_⟩
    intro x hx hy
    simp only [List.map_cons, List.map_nil, List.mem_singleton] at hy
    subst hy
    exact hnot hx
  · rw [hK]
    ext x
    simp only [Finset.mem_insert, List.mem_toFinset, List.map_append, List.mem_append,
      List.map_cons, List.map_nil, List.mem_singleton]
    exact or_comm
  · intro e he
    rw [List.mem_append, List.mem_singleton] at he
    rcases he with he | rfl
    · have hne : canonical e.ip ≠ canonical a := by
        intro heq
        exact hnot (by rw [← heq]; exact List.mem_map_of_mem _ he)
      rw [Function.update_noteq hne]
      exact hf e he
    · simp

theorem keyedCountFor_eq (c : connLimitMap) (k : keyedRegistry) (id : String) (a : IP)
    (h : represents c k) : keyedCountFor k id a = countFor c id a :=
  representsList_lookup _ _ _ a (h.2 id)

theorem keyedCanEstablish_eq (w : IntSize) (c : connLimitMap) (k : keyedRegistry)
    (id : String) (a : IP) (h : represents c k)
    (hw : w = .bits64 ∨ (k.policy id).getD 0 < 2 ^ 31) :
    keyedCanEstablish k id a = CanEstablishNewConnection w c id a := by
  have hact : keyedActive k id = activeAddresses c id :=
    representsList_active _ _ _ (h.2 id)
  have hmax : (k.policy id).getD 0 = maxAllowed c id := by rw [maxAllowed, h.1]
  rw [hmax] at hw
  simp only [keyedCanEstablish, CanEstablishNewConnection_def, alreadyHasConnection_eq,
    connectedIPsForID_eq, maxAllowedConnectionsAt_eq, keyedCountFor_eq c k id a h, hact,
    hmax, intOfUint32_eq w _ hw, Nat.cast_lt]

theorem keyedOnEstablished_represents (c : connLimitMap) (k : keyedRegistry) (id : String)
    (a : IP) (h : represents c k)
    (hb : (keyedCountFor k id a).getD 0 + 1 < uint32Size) :
    represents (OnConnectionEstablished c id a).1 (keyedOnEstablished k id a).1 := by
  refine ⟨h.1, fun id1 => ?_⟩
  by_cases hid : id1 = id
  · subst hid
    have hl := countersOf_established c id1 a
    cases hf : findIP (countersOf c id1) a with
    | some i =>
      rw [hf] at hl
      obtain ⟨hin, hrep⟩ :=
        representsList_modify (fun n => (n + 1) % uint32Size) _ _ _ a i (h.2 id1) hf
      have hn : (keyedCountFor k id1 a).getD 0 = k.count id1 (canonical a) := by
        simp [keyedCountFor, hin]
      rw [hn] at hb
      have hmod : (k.count id1 (canonical a) + 1) % uint32Size =
          k.count id1 (canonical a) + 1 := Nat.mod_eq_of_lt hb
      simp only [] at hl
      rw [hl]
      simpa [keyedOnEstablished, hn, hmod, Finset.insert_eq_of_mem hin] using hrep
    | none =>
      rw [hf] at hl
      obtain ⟨hnot, hrep⟩ := representsList_append 1 _ _ _ a (h.2 id1) hf
      have hn : (keyedCountFor k id1 a).getD 0 = 0 := by
        simp [keyedCountFor, hnot]
      simp only [] at hl
      rw [hl]
      simpa [keyedOnEstablished, hn] using hrep
  · have hl : countersOf (OnConnectionEstablished c id a).1 id1 = countersOf c id1 := by
      simp [countersOf, countersOf_established_ne c id id1 a hid]
    rw [hl]
    simpa [keyedOnEstablished, Function.update_noteq hid] using h.2 id1

theorem keyedOnLost_represents (c : connLimitMap) (k : keyedRegistry) (id : String)
    (a : IP) (h : represents c k) :
    (∃ c1 k1, OnConnectionLost c id a = .ok c1 ∧ keyedOnLost k id a = some k1 ∧
      k1.policy = k.policy ∧ represents c1 k1) ∨
    ((∃ p, OnConnectionLost c id a = .error p) ∧ keyedOnLost k id a = none) := by
  have hlook := keyedCountFor_eq c k id a h
  rcases OnConnectionLost_cases c id a with ⟨hl, h1⟩ | ⟨l, hl, hf, h1⟩ |
    ⟨l, i, hl, hf, h0, h1⟩ | ⟨l, i, hl, hf, hpos, h1⟩
  · refine Or.inr ⟨⟨_, h1⟩, ?_⟩
    have : countFor c id a = none := by simp [countFor, counterFor, countersOf, hl]
    simp [keyedOnLost, hlook, this]
  · refine Or.inr ⟨⟨_, h1⟩, ?_⟩
    simp [keyedOnLost, hlook, countFor_none_of_findIP c id a l hl hf]
  · refine Or.inr ⟨⟨_, h1⟩, ?_⟩
    simp [keyedOnLost, hlook, (countFor_of_findIP (fun n => n) c id a l i hl hf).1, h0]
  · have hc := (countFor_of_findIP (fun n => n) c id a l i hl hf).1
    have hcl : countersOf c id = l := by simp [countersOf, hl]
    have hrepl := h.2 id
    rw [hcl] at hrepl
    obtain ⟨hin, hrep⟩ := representsList_modify (fun n => n - 1) l _ _ a i hrepl hf
    have hval : k.count id (canonical a) = countAt l i := by
      have := hlook
      rw [hc] at this
      simpa [keyedCountFor, hin] using this
    have hne : ¬ countAt l i = 0 := by omega
    refine Or.inl ⟨_,
      { k with
        count := Function.update k.count id
          (Function.update (k.count id) (canonical a) (countAt l i - 1)) },
      h1, by simp [keyedOnLost, hlook, hc, hne], rfl, h.1, fun id1 => ?_⟩
    by_cases hid : id1 = id
    · subst hid
      rw [hval] at hrep
      simpa [countersOf] using hrep
    · simpa [countersOf, Function.update_noteq hid] using h.2 id1

/-- A keyed registry that a list registry stands for shows the same results on every
sequence of calls during which its counts stay below `2 ^ 32`, where the conversion of
the limits to `int` keeps their value. -/
theorem observe_eq_keyedObserve (w : IntSize) (ops : List Op) (c : connLimitMap)
    (k : keyedRegistry) (h : represents c k)
    (hw : w = .bits64 ∨ ∀ id, (k.policy id).getD 0 < 2 ^ 31)
    (hb : countsBelowWrap k ops = true) : observe w c ops = keyedObserve k ops := by
  induction ops generalizing c k with
  | nil => rfl
  | cons op ops ih =>
    cases op with
    | canEstablish id a =>
      simp only [countsBelowWrap] at hb
      have hw1 : w = .bits64 ∨ (k.policy id).getD 0 < 2 ^ 31 := hw.imp (fun h0 => h0) (fun h1 => h1 id)
      simp only [observe, keyedObserve, keyedCanEstablish_eq w c k id a h hw1, ih c k h hw hb]
    | established id a =>
      simp only [countsBelowWrap, Bool.and_eq_true, decide_eq_true_eq] at hb
      simp only [observe, keyedObserve]
      rw [ih _ _ (keyedOnEstablished_represents c k id a h hb.1) hw hb.2]
      rfl
    | lost id a =>
      simp only [observe, keyedObserve]
      rcases keyedOnLost_represents c k id a h with ⟨c1, k1, h1, h2, h3, h4⟩ | ⟨⟨p, h1⟩, h2⟩
      · simp only [countsBelowWrap, h2] at hb
        rw [h1, h2]
        simp only [ih c1 k1 h4 (by rw [h3]; exact hw) hb]
      · rw [h1, h2]

theorem represents_fresh (allowed : List AllowedConnections) (dbg : Bool) :
    represents (MakeConnLimitInfo allowed dbg) (keyedMake allowed) :=
  ⟨rfl, fun _ => ⟨List.nodup_nil, rfl, fun _ he => by cases he⟩⟩

theorem keyedMake_policy_lt (allowed : List AllowedConnections)
    (h : ∀ e ∈ allowed, e.MaxConnections < 2 ^ 31) (id : String) :
    ((keyedMake allowed).policy id).getD 0 < 2 ^ 31 := by
  simp only [keyedMake, foldl_policy]
  cases hfind : allowed.reverse.find? (fun e => decide (e.Id = id)) with
  | none => simp
  | some e =>
    have := h e (List.mem_reverse.mp (List.mem_of_find?_eq_some hfind))
    simpa using this

/-! ## The order of a counter list does not matter -/

theorem distinctAddresses_perm (l1 l2 : List connectedIP) (hperm : l2.Perm l1)
    (hd : distinctAddresses l1) : distinctAddresses l2 := by
  unfold distinctAddresses at *
  refine (hperm.pairwise_iff ?_).mpr hd
  intro x y hxy
  rw [IP.Equal_symm]
  exact hxy

theorem find?_perm (l1 l2 : List connectedIP) (a : IP) (hperm : l2.Perm l1)
    (hd : distinctAddresses l1) :
    l2.find? (fun e => e.ip.Equal a) = l1.find? (fun e => e.ip.Equal a) := by
  cases h1 : l1.find? (fun e => e.ip.Equal a) with
  | none =>
    rw [List.find?_eq_none] at h1 ⊢
    exact fun e he => h1 e (hperm.mem_iff.mp he)
  | some e =>
    have hmem := hperm.mem_iff.mpr (List.mem_of_find?_eq_some h1)
    have hea : e.ip.Equal a = true := by simpa using List.find?_some h1
    exact find?_of_distinct l2 a e (distinctAddresses_perm l1 l2 hperm hd) hmem hea

theorem findIP_isSome_perm (l1 l2 : List connectedIP) (a : IP) (hperm : l2.Perm l1)
    (hd : distinctAddresses l1) : findIP l2 a = none ↔ findIP l1 a = none := by
  rw [findIP_none_iff, findIP_none_iff, find?_perm l1 l2 a hperm hd]

/-- In a list without equal addresses the write through the pointer found for `a` is the
rewrite of every counter whose address equals `a`. -/
theorem modifyCount_eq_map (f : Nat → Nat) (l : List connectedIP) (a : IP) (i : Nat)
    (hd : distinctAddresses l) (hf : findIP l a = some i) :
    modifyCount f l i =
      l.map (fun e => if e.ip.Equal a then { e with count := f e.count } else e) := by
  induction l generalizing i with
  | nil => simp [findIP] at hf
  | cons x rest ih =>
    rw [distinctAddresses, List.pairwise_cons] at hd
    by_cases hx : x.ip.Equal a = true
    · simp [findIP, hx] at hf
      subst hf
      have hrest : rest.map
          (fun e => if e.ip.Equal a then { e with count := f e.count } else e) = rest := by
        conv_rhs => rw [← List.map_id rest]
        apply List.map_congr_left
        intro e he
        have hea : e.ip.Equal a = false := by
          rw [← Bool.not_eq_true]
          intro hea
          have hae : IP.Equal a e.ip = true := by rw [IP.Equal_symm]; exact hea
          have := IP.Equal_trans x.ip a e.ip hx hae
          rw [hd.1 e he] at this
          cases this
        simp [hea]
      simp [modifyCount, hx, hrest]
    · cases hr : findIP rest a with
      | none => simp [findIP, hx, hr] at hf
      | some i1 =>
        simp [findIP, hx, hr] at hf
        subst hf
        simp [modifyCount, hx, ih i1 hd.2 hr]

theorem modifyCount_perm (f : Nat → Nat) (l1 l2 : List connectedIP) (a : IP) (i1 i2 : Nat)
    (hperm : l2.Perm l1) (hd : distinctAddresses l1) (h1 : findIP l1 a = some i1)
    (h2 : findIP l2 a = some i2) : (modifyCount f l2 i2).Perm (modifyCount f l1 i1) := by
  rw [modifyCount_eq_map f l1 a i1 hd h1,
    modifyCount_eq_map f l2 a i2 (distinctAddresses_perm l1 l2 hperm hd) h2]
  exact hperm.map _

theorem countFor_perm (c1 c2 : connLimitMap) (id : String) (a : IP)
    (hperm : (countersOf c2 id).Perm (countersOf c1 id))
    (hd : distinctAddresses (countersOf c1 id)) : countFor c2 id a = countFor c1 id a := by
  rw [countFor, countFor, counterFor, counterFor, find?_perm _ _ a hperm hd]

theorem countersOf_update (c : connLimitMap) (id id1 : String) (l : List connectedIP) :
    countersOf { c with connectedIPs := Function.update c.connectedIPs id (some l) } id1 =
      if id1 = id then l else countersOf c id1 := by
  by_cases h : id1 = id
  · subst h
    simp [countersOf]
  · simp [countersOf, Function.update_noteq h, h]

/-- The outcome of `OnConnectionLost` by the count of the pair: a panic when the pair has
no counter or a counter at 0, otherwise the count at the position found is decremented. -/
theorem OnConnectionLost_by_count (c : connLimitMap) (id : String) (a : IP) :
    ((countFor c id a = none ∨ countFor c id a = some 0) ∧
      ∃ p, OnConnectionLost c id a = .error p) ∨
    (∃ n i, 0 < n ∧ countFor c id a = some n ∧ findIP (countersOf c id) a = some i ∧
      OnConnectionLost c id a =
        .ok { c with
          connectedIPs := Function.update c.connectedIPs id
            (some (modifyCount (fun n => n - 1) (countersOf c id) i)) }) := by
  rcases OnConnectionLost_cases c id a with ⟨hl, h1⟩ | ⟨l, hl, hf, h1⟩ |
    ⟨l, i, hl, hf, h0, h1⟩ | ⟨l, i, hl, hf, hpos, h1⟩
  · exact Or.inl ⟨Or.inl (by simp [countFor, counterFor, countersOf, hl]), _, h1⟩
  · exact Or.inl ⟨Or.inl (countFor_none_of_findIP c id a l hl hf), _, h1⟩
  · refine Or.inl ⟨Or.inr ?_, _, h1⟩
    rw [(countFor_of_findIP (fun n => n) c id a l i hl hf).1, h0]
  · have hcl : countersOf c id = l := by simp [countersOf, hl]
    refine Or.inr ⟨countAt l i, i, hpos,
      (countFor_of_findIP (fun n => n) c id a l i hl hf).1, by rw [hcl]; exact hf, ?_⟩
    rw [hcl]
    exact h1

/-- Two registries with the same policy whose lists are permutations of each other,
without equal addresses, show the same results on every sequence of calls. -/
theorem observe_perm (w : IntSize) (ops : List Op) (c1 c2 : connLimitMap)
    (hp : c2.maxAllowedConnections = c1.maxAllowedConnections)
    (hperm : ∀ id, (countersOf c2 id).Perm (countersOf c1 id))
    (hd : ∀ id, distinctAddresses (countersOf c1 id)) :
    observe w c2 ops = observe w c1 ops := by
  induction ops generalizing c1 c2 with
  | nil => rfl
  | cons op ops ih =>
    cases op with
    | canEstablish id a =>
      have hcan : CanEstablishNewConnection w c2 id a = CanEstablishNewConnection w c1 id a := by
        rw [Bool.eq_iff_iff, canEstablish_true_iff_int, canEstablish_true_iff_int,
          countFor_perm c1 c2 id a (hperm id) (hd id)]
        have hact : activeAddresses c2 id = activeAddresses c1 id := (hperm id).countP_eq _
        have hmax : maxAllowed c2 id = maxAllowed c1 id := by rw [maxAllowed, maxAllowed, hp]
        rw [hact, hmax]
      simp only [observe, hcan, ih c1 c2 hp hperm hd]
    | established id a =>
      simp only [observe]
      have hnext : observe w (OnConnectionEstablished c2 id a).1 ops =
          observe w (OnConnectionEstablished c1 id a).1 ops := by
        refine ih _ _ hp (fun id1 => ?_)
          (fun id1 => step_distinct c1 _ (.established id a) rfl hd id1)
        by_cases hid : id1 = id
        · subst hid
          rw [countersOf_established c1 id1 a, countersOf_established c2 id1 a]
          cases h1 : findIP (countersOf c1 id1) a with
          | none =>
            rw [(findIP_isSome_perm _ _ a (hperm id1) (hd id1)).mpr h1]
            exact (hperm id1).append_right _
          | some i1 =>
            cases h2 : findIP (countersOf c2 id1) a with
            | none =>
              rw [(findIP_isSome_perm _ _ a (hperm id1) (hd id1)).mp h2] at h1
              cases h1
            | some i2 =>
              exact modifyCount_perm _ _ _ a i1 i2 (hperm id1) (hd id1) h1 h2
        · have e1 : countersOf (OnConnectionEstablished c1 id a).1 id1 = countersOf c1 id1 := by
            simp [countersOf, countersOf_established_ne c1 id id1 a hid]
          have e2 : countersOf (OnConnectionEstablished c2 id a).1 id1 = countersOf c2 id1 := by
            simp [countersOf, countersOf_established_ne c2 id id1 a hid]
          rw [e1, e2]
          exact hperm id1
      rw [hnext]
      rfl
    | lost id a =>
      simp only [observe]
      have hcount := countFor_perm c1 c2 id a (hperm id) (hd id)
      rcases OnConnectionLost_by_count c1 id a with ⟨hz1, p1, h1⟩ |
        ⟨n1, i1, hpos1, hn1, hf1, h1⟩ <;>
      rcases OnConnectionLost_by_count c2 id a with ⟨hz2, p2, h2⟩ |
        ⟨n2, i2, hpos2, hn2, hf2, h2⟩
      · rw [h1, h2]
      · rw [hcount] at hn2
        rcases hz1 with hz1 | hz1 <;> rw [hz1] at hn2 <;> cases hn2
        omega
      · rw [← hcount] at hn1
        rcases hz2 with hz2 | hz2 <;> rw [hz2] at hn1 <;> cases hn1
        omega
      · rw [h1, h2]
        have hnext := ih
          { c1 with
            connectedIPs := Function.update c1.connectedIPs id
              (some (modifyCount (fun n => n - 1) (countersOf c1 id) i1)) }
          { c2 with
            connectedIPs := Function.update c2.connectedIPs id
              (some (modifyCount (fun n => n - 1) (countersOf c2 id) i2)) }
          hp
          (fun id1 => by
            rw [countersOf_update, countersOf_update]
            by_cases hid : id1 = id
            · rw [if_pos hid, if_pos hid]
              exact modifyCount_perm _ _ _ a i1 i2 (hperm id) (hd id) hf1 hf2
            · rw [if_neg hid, if_neg hid]
              exact hperm id1)
          (fun id1 => step_distinct c1 _ (.lost id a) (by simp only [step, h1]) hd id1)
        simp only [hnext]

/-! ## Where the keyed model and the list registry part -/

theorem observe_replicate_established (w : IntSize) (n : Nat) (c c1 : connLimitMap)
    (id : String) (a : IP) (ys : List Op)
    (h : run c (List.replicate n (.established id a)) = some c1) :
    observe w c (List.replicate n (.established id a) ++ ys) =
      List.replicate n (.established true) ++ observe w c1 ys := by
  induction n generalizing c with
  | zero =>
    simp only [List.replicate_zero, run, Option.some.injEq] at h
    subst h
    rfl
  | succ n ih =>
    rw [List.replicate_succ, run] at h
    simp only [step] at h
    rw [List.replicate_succ, List.cons_append, observe, ih _ h, List.replicate_succ,
      List.cons_append]
    rfl

theorem keyedCountFor_established (k : keyedRegistry) (id : String) (a : IP) :
    keyedCountFor (keyedOnEstablished k id a).1 id a =
      some ((keyedCountFor k id a).getD 0 + 1) := by
  simp [keyedCountFor, keyedOnEstablished]

theorem keyedObserve_replicate_established (n : Nat) (k : keyedRegistry) (id : String)
    (a : IP) (ys : List Op) :
    ∃ k1, keyedObserve k (List.replicate n (.established id a) ++ ys) =
        List.replicate n (.established true) ++ keyedObserve k1 ys ∧
      (keyedCountFor k1 id a).getD 0 = (keyedCountFor k id a).getD 0 + n := by
  induction n generalizing k with
  | zero => exact ⟨k, rfl, rfl⟩
  | succ n ih =>
    obtain ⟨k1, hobs, hcount⟩ := ih (keyedOnEstablished k id a).1
    refine ⟨k1, ?_, ?_⟩
    · rw [List.replicate_succ, List.cons_append, keyedObserve, hobs, List.replicate_succ,
        List.cons_append]
      rfl
    · rw [hcount, keyedCountFor_established]
      simp only [Option.getD_some]
      omega

/-- C17 as stated fails, in two ways.  On a 64-bit build, with policy `[("svc", 1)]`,
`2 ^ 32` calls of `OnConnectionEstablished("svc", 10.0.0.1)` wrap the `uint32` counter of
the list registry to 0, so the following `OnConnectionLost` panics, while the keyed model
holds the count `2 ^ 32` and decrements it.  On a 32-bit build, with policy
`[("svc", 2 ^ 31)]`, the first admission check on the fresh list registry is refused,
`int(limit)` being negative, while the keyed model admits. -/
theorem keyed_model_diverges :
    observe .bits64 (MakeConnLimitInfo [⟨"svc", 1⟩] false)
        (List.replicate 4294967295 (.established "svc" [10, 0, 0, 1]) ++
          [.established "svc" [10, 0, 0, 1], .lost "svc" [10, 0, 0, 1]]) ≠
      keyedObserve (keyedMake [⟨"svc", 1⟩])
        (List.replicate 4294967295 (.established "svc" [10, 0, 0, 1]) ++
          [.established "svc" [10, 0, 0, 1], .lost "svc" [10, 0, 0, 1]]) ∧
    observe .bits32 (MakeConnLimitInfo [⟨"svc", 2147483648⟩] false)
        [.canEstablish "svc" [10, 0, 0, 1]] ≠
      keyedObserve (keyedMake [⟨"svc", 2147483648⟩]) [.canEstablish "svc" [10, 0, 0, 1]] := by
  constructor
  · have heff : effectiveCount (MakeConnLimitInfo [⟨"svc", 1⟩] false) "svc" [10, 0, 0, 1] = 0 :=
      rfl
    obtain ⟨c1, hrun, -, hcount⟩ := run_replicate_established 4294967295
      (MakeConnLimitInfo [⟨"svc", 1⟩] false) "svc" [10, 0, 0, 1] (by rw [heff]; norm_num)
    have hc1 : countFor c1 "svc" [10, 0, 0, 1] = some 4294967295 := by
      rw [hcount (by norm_num), heff]
    have hc2 : countFor (OnConnectionEstablished c1 "svc" [10, 0, 0, 1]).1 "svc"
        [10, 0, 0, 1] = some 0 := by
      rw [(established_present c1 "svc" [10, 0, 0, 1] 4294967295 hc1).2]
      norm_num
    have hL : observe .bits64 c1
        [.established "svc" [10, 0, 0, 1], .lost "svc" [10, 0, 0, 1]] =
        [.established true, .lostPanic] := by
      rcases OnConnectionLost_by_count (OnConnectionEstablished c1 "svc" [10, 0, 0, 1]).1
        "svc" [10, 0, 0, 1] with ⟨-, p, hp⟩ | ⟨n, i, hpos, hn, -, -⟩
      · simp only [observe, hp]
        rfl
      · have h0 : some 0 = some n := hc2.symm.trans hn
        have h1 : 0 = n := Option.some.inj h0
        omega
    obtain ⟨k1, hobs, hk1⟩ := keyedObserve_replicate_established 4294967295
      (keyedMake [⟨"svc", 1⟩]) "svc" [10, 0, 0, 1]
      [.established "svc" [10, 0, 0, 1], .lost "svc" [10, 0, 0, 1]]
    have hk0 : (keyedCountFor (keyedMake [⟨"svc", 1⟩]) "svc" [10, 0, 0, 1]).getD 0 = 0 := by
      simp [keyedCountFor, keyedMake]
    have hk2 : keyedCountFor (keyedOnEstablished k1 "svc" [10, 0, 0, 1]).1 "svc"
        [10, 0, 0, 1] = some 4294967296 := by
      rw [keyedCountFor_established, hk1, hk0]
    have hK : keyedObserve k1
        [.established "svc" [10, 0, 0, 1], .lost "svc" [10, 0, 0, 1]] =
        [.established true, .lost] := by
      simp only [keyedObserve, keyedOnLost, hk2]
      rfl
    rw [observe_replicate_established .bits64 4294967295 _ c1 "svc" [10, 0, 0, 1] _ hrun,
      hL, hobs, hK]
    intro h
    have := List.append_cancel_left h
    exact absurd this (by decide)
  · decide

/-- C17 (amended): on every sequence of calls from the fresh registry during which no
count reaches `2 ^ 32`, on a build whose `int` has 64 bits or with every limit of the
policy below `2 ^ 31`, the linked-list registry and the keyed model (one non-negative
count per identifier and canonical address, absent = no counter, no order) give the same
`CanEstablishNewConnection` results, the same `OnConnectionEstablished` results, and
`OnConnectionLost` panics exactly when the keyed model fails; and, on either build and
whatever the counts, reordering the lists of a reachable registry changes no result. -/
theorem keyed_model_equivalent (w : IntSize) (allowed : List AllowedConnections)
    (dbg : Bool) (ops : List Op) :
    ((w = .bits64 ∨ ∀ e ∈ allowed, e.MaxConnections < 2 ^ 31) →
      countsBelowWrap (keyedMake allowed) ops = true →
      observe w (MakeConnLimitInfo allowed dbg) ops = keyedObserve (keyedMake allowed) ops) ∧
    (∀ ops0 c1 c2, run (MakeConnLimitInfo allowed dbg) ops0 = some c1 →
      c2.maxAllowedConnections = c1.maxAllowedConnections →
      (∀ id, (countersOf c2 id).Perm (countersOf c1 id)) →
      observe w c2 ops = observe w c1 ops) := by
  refine ⟨fun hw hb => ?_, fun ops0 c1 c2 hrun hp hperm => ?_⟩
  · exact observe_eq_keyedObserve w ops _ _ (represents_fresh allowed dbg)
      (hw.imp (fun h0 => h0) (fun h1 => keyedMake_policy_lt allowed h1)) hb
  · exact observe_perm w ops c1 c2 hp hperm
      (run_distinct ops0 _ c1 (fresh_distinct allowed dbg) hrun)

theorem keyed_model_equivalent_witness :
    observe .bits32 (MakeConnLimitInfo [⟨"svc", 2⟩] false)
        [.canEstablish "svc" [10, 0, 0, 1], .established "svc" [10, 0, 0, 1],
          .established "svc" [10, 0, 0, 2], .canEstablish "svc" [10, 0, 0, 3],
          .lost "svc" [10, 0, 0, 1], .lost "svc" [10, 0, 0, 1]] =
      keyedObserve (keyedMake [⟨"svc", 2⟩])
        [.canEstablish "svc" [10, 0, 0, 1], .established "svc" [10, 0, 0, 1],
          .established "svc" [10, 0, 0, 2], .canEstablish "svc" [10, 0, 0, 3],
          .lost "svc" [10, 0, 0, 1], .lost "svc" [10, 0, 0, 1]] ∧
    observe .bits32
        { MakeConnLimitInfo [⟨"svc", 2⟩] false with
          connectedIPs := Function.update (fun _ => none) "svc"
            (some [⟨[10, 0, 0, 2], 1⟩, ⟨[10, 0, 0, 1], 1⟩]) }
        [.canEstablish "svc" [10, 0, 0, 3], .lost "svc" [10, 0, 0, 1],
          .canEstablish "svc" [10, 0, 0, 3], .lost "svc" [10, 0, 0, 1]] =
      observe .bits32
        (OnConnectionEstablished
          (OnConnectionEstablished (MakeConnLimitInfo [⟨"svc", 2⟩] false) "svc"
            [10, 0, 0, 1]).1 "svc" [10, 0, 0, 2]).1
        [.canEstablish "svc" [10, 0, 0, 3], .lost "svc" [10, 0, 0, 1],
          .canEstablish "svc" [10, 0, 0, 3], .lost "svc" [10, 0, 0, 1]] :=
  ⟨(keyed_model_equivalent .bits32 [⟨"svc", 2⟩] false
      [.canEstablish "svc" [10, 0, 0, 1], .established "svc" [10, 0, 0, 1],
        .established "svc" [10, 0, 0, 2], .canEstablish "svc" [10, 0, 0, 3],
        .lost "svc" [10, 0, 0, 1], .lost "svc" [10, 0, 0, 1]]).1
      (Or.inr (by decide)) (by decide),
    (keyed_model_equivalent .bits32 [⟨"svc", 2⟩] false
      [.canEstablish "svc" [10, 0, 0, 3], .lost "svc" [10, 0, 0, 1],
        .canEstablish "svc" [10, 0, 0, 3], .lost "svc" [10, 0, 0, 1]]).2
      [.established "svc" [10, 0, 0, 1], .established "svc" [10, 0, 0, 2]] _ _ rfl rfl
      (fun id => by
        by_cases hid : id = "svc"
        · subst hid
          exact List.Perm.swap _ _ _
        · simp [countersOf, OnConnectionEstablished, incrementConnectionsCounter,
            MakeConnLimitInfo, Function.update_noteq hid])⟩

end features
